import Mathlib

set_option maxRecDepth 100000

/-!
Verification of the ritual-app habit tracker (src/src/App.jsx).

The app is a JavaScript/React single file.  Its non-presentational core is:
date bucketing built on the JavaScript Date object, a log store kept as a
plain JS object keyed by date strings, and a pointer-gesture state machine
driven by setTimeout timers.

The JavaScript Date built-in is embedded following the ECMA-262 definitions
(DayFromYear, MakeDay, YearFromTime, MonthFromTime, DateFromTime, WeekDay,
the 0..99 two-digit-year rule of the Date constructor, and the UTC-based
toISOString).  All integer divisions in ECMA-262 are mathematical floor
divisions; every divisor below is positive, so Int ediv (the / notation)
computes exactly those floors.  Times are milliseconds since the epoch; the
environment is the clock value together with the local-time offset from UTC
in minutes (local time = UTC time + tzMin minutes).

The log store is embedded as an association list mirroring JS object
semantics: property insertion keeps order, overwriting an existing key keeps
its position; a JS object never holds a duplicate key.

The gesture machinery is a small-step event machine: pointer events, timer
firings (a pending setTimeout callback may run at any point once its
deadline has passed) and clock advance are discrete events processed one at
a time, exactly as in the single-threaded browser event loop.
-/

namespace Ritual

/-! ### Calendar: ECMA-262 Date arithmetic -/

/-- ECMA-262 DayFromYear: day number (days since 1970-01-01) of January 1 of
proleptic Gregorian year y. -/
def dayFromYear (y : ℤ) : ℤ :=
  365 * (y - 1970) + (y - 1969) / 4 - (y - 1901) / 100 + (y - 1601) / 400

/-- Proleptic Gregorian leap year (ECMA-262 DaysInYear = 366). -/
def isLeap (y : ℤ) : Prop := y % 4 = 0 ∧ (y % 100 ≠ 0 ∨ y % 400 = 0)

instance : DecidablePred isLeap := fun y => by unfold isLeap; infer_instance

/-- ECMA-262 DaysInYear. -/
def daysInYear (y : ℤ) : ℤ := if isLeap y then 366 else 365

/-- Month lengths of a (leap or common) year, January first. -/
def monthLens (leap : Bool) : List ℤ :=
  [31, if leap then 29 else 28, 31, 30, 31, 30, 31, 31, 30, 31, 30, 31]

/-- Day-of-year on which 0-based month m starts (ECMA-262 MonthFromTime
boundary table). -/
def monthStart (leap : Bool) (m : ℕ) : ℤ := ((monthLens leap).take m).sum

/-- ECMA-262 YearFromTime restricted to whole days: the year containing day
number z.  The year is located inside a 400-year era (146097 days) by a
bounded search, which realises the defining property of YearFromTime. -/
def yearFromDay (z : ℤ) : ℤ :=
  400 * ((z - dayFromYear 0) / 146097) +
    (Nat.findGreatest
      (fun k => dayFromYear (k : ℤ) - dayFromYear 0 ≤ (z - dayFromYear 0) % 146097) 399 : ℕ)

/-- ECMA-262 MonthFromTime restricted to a day-of-year value. -/
def monthFromDoy (leap : Bool) (doy : ℤ) : ℕ :=
  Nat.findGreatest (fun m => monthStart leap m ≤ doy) 11

/-- Civil date (year, 0-based month, 1-based day of month) of a day number:
ECMA-262 YearFromTime / MonthFromTime / DateFromTime. -/
def civilFromDay (z : ℤ) : ℤ × ℕ × ℤ :=
  (yearFromDay z,
   monthFromDoy (decide (isLeap (yearFromDay z))) (z - dayFromYear (yearFromDay z)),
   z - dayFromYear (yearFromDay z)
     - monthStart (decide (isLeap (yearFromDay z)))
         (monthFromDoy (decide (isLeap (yearFromDay z))) (z - dayFromYear (yearFromDay z))) + 1)

/-- ECMA-262 MakeDay: day number of (year, 0-based month, day), with month
overflow normalised and the day argument taken as an offset from day 1. -/
def makeDay (y m date : ℤ) : ℤ :=
  dayFromYear (y + m / 12) + monthStart (decide (isLeap (y + m / 12))) ((m % 12).toNat) + date - 1

/-- The two-digit-year rule of the Date constructor: new Date(y, ...) reads
a year argument 0..99 as 1900+y (ECMA-262 MakeFullYear). -/
def remapYear (y : ℤ) : ℤ := if 0 ≤ y ∧ y ≤ 99 then y + 1900 else y

/-- ECMA-262 WeekDay of a day number: 0 = Sunday, 1 = Monday, ...; day 0
(1970-01-01) was a Thursday (4). -/
def jsWeekday (day : ℤ) : ℤ := (day + 4) % 7

/-! ### Date-string formatting (toISOString date part, template strings) -/

def zeroStr : String := "0"

def dashStr : String := "-"

def plusStr : String := "+"

/-- String.prototype.padStart with "0" (used with pad width 2), and the
fixed-width year field of toISOString. -/
def padZeros (n : ℕ) (s : String) : String :=
  String.join (List.replicate (n - s.length) zeroStr) ++ s

def pad2 (n : ℤ) : String := padZeros 2 (toString n)

/-- The year field of toISOString: four digits for years 0..9999, expanded
signed six-digit form otherwise (ECMA-262 Date Time String Format). -/
def isoYearStr (y : ℤ) : String :=
  if 0 ≤ y ∧ y ≤ 9999 then padZeros 4 (toString y)
  else if y < 0 then dashStr ++ padZeros 6 (toString (-y))
  else plusStr ++ padZeros 6 (toString y)

/-- The date part of toISOString for a UTC day number. -/
def isoDateStr (z : ℤ) : String :=
  isoYearStr (civilFromDay z).1 ++ dashStr ++ pad2 (((civilFromDay z).2.1 : ℤ) + 1)
    ++ dashStr ++ pad2 (civilFromDay z).2.2

/-! ### The environment: clock and local-time offset -/

/-- The ambient environment of a call: the clock (epoch milliseconds, what
Date.now() and new Date() observe) and the local-time offset from UTC in
minutes (local time = UTC + tzMin; JS getTimezoneOffset returns -tzMin). -/
structure Env where
  nowMs : ℤ
  tzMin : ℤ

/-- ECMA-262 Day(t): UTC day number of an epoch instant. -/
def msDay (t : ℤ) : ℤ := t / 86400000

/-- ECMA-262 LocalTime(t). -/
def localMs (e : Env) : ℤ := e.nowMs + e.tzMin * 60000

/-- Day number of the local civil date of the clock (what getFullYear,
getMonth, getDate, getDay of new Date() are read from). -/
def localDay (e : Env) : ℤ := msDay (localMs e)

/-- toDateStr (App.jsx line 23): d.toISOString().split("T")[0], the UTC
calendar date of the epoch instant t in YYYY-MM-DD form. -/
def toDateStr (t : ℤ) : String := isoDateStr (msDay t)

/-! ### getWeekDates (App.jsx lines 46-56)

now = new Date(); day = now.getDay();
diff = now.getDate() - day + (day === 0 ? -6 : 1);
mon = new Date(now.getFullYear(), now.getMonth(), diff);
entries i = 0..6: d = new Date(mon); d.setDate(mon.getDate() + i); toDateStr(d).

The getters read the local civil clock; the Date constructor applies the
two-digit-year rule and builds the local-midnight instant of the (day-
normalised) civil date, whose epoch value is the local value minus the
offset; setDate rebuilds the instant from the local fields of mon with the
day replaced; toDateStr takes the UTC date of the built instant. -/

/-- Local day number of mon = new Date(getFullYear, getMonth, diff). -/
def monDayOf (e : Env) : ℤ :=
  makeDay (remapYear (civilFromDay (localDay e)).1) ((civilFromDay (localDay e)).2.1 : ℤ)
    ((civilFromDay (localDay e)).2.2 - jsWeekday (localDay e) +
      (if jsWeekday (localDay e) = 0 then -6 else 1))

/-- Epoch milliseconds of mon (local midnight, converted to UTC). -/
def monMs (e : Env) : ℤ := monDayOf e * 86400000 - e.tzMin * 60000

/-- Local day number read back from mon (its getFullYear/getMonth/getDate
fields are the civil date of this day). -/
def monLocalDay (e : Env) : ℤ := msDay (monMs e + e.tzMin * 60000)

/-- UTC day number of the i-th entry: d = new Date(mon);
d.setDate(mon.getDate() + i); then the UTC day of d. -/
def weekDayEntry (e : Env) (i : ℕ) : ℤ :=
  msDay (makeDay (civilFromDay (monLocalDay e)).1 ((civilFromDay (monLocalDay e)).2.1 : ℤ)
    ((civilFromDay (monLocalDay e)).2.2 + (i : ℤ)) * 86400000 - e.tzMin * 60000)

/-- The UTC day numbers whose ISO date strings getWeekDates returns. -/
def getWeekDays (e : Env) : List ℤ := (List.range 7).map (weekDayEntry e)

/-- getWeekDates (App.jsx lines 46-56). -/
def getWeekDates (e : Env) : List String := (getWeekDays e).map isoDateStr

/-- getMonthDays (App.jsx lines 58-64):
count = new Date(year, month + 1, 0).getDate();
entries i = 0..count-1 are the template strings
year ++ "-" ++ pad2 (month + 1) ++ "-" ++ pad2 (i + 1).
The Date constructor stores TimeClip(UTC(MakeDate(MakeDay(yr, month+1, 0),
0))) : when the UTC time value (the local day number in ms, shifted by the
zone offset as in the other constructions above) lies outside the Date
range of plus or minus 8.64e15 ms the stored value is NaN, getDate() is NaN, and
Array.from with a NaN length yields the empty list; otherwise getDate()
recovers the day-of-month of the constructed local day. -/
def getMonthDays (e : Env) (year month : ℤ) : List String :=
  if -(8640000000000000 : ℤ) ≤ makeDay (remapYear year) (month + 1) 0 * 86400000 -
        e.tzMin * 60000 ∧
      makeDay (remapYear year) (month + 1) 0 * 86400000 - e.tzMin * 60000 ≤
        (8640000000000000 : ℤ) then
    (List.range ((civilFromDay (makeDay (remapYear year) (month + 1) 0)).2.2).toNat).map
      (fun i => toString year ++ dashStr ++ pad2 (month + 1) ++ dashStr ++ pad2 ((i : ℤ) + 1))
  else []

/-! ### Spec-side definitions (stated from the words of the specification,
for comparison against the embedded code) -/

/-- Spec-side: the true number of days of 0-based month m of year y (28 for
February of a common year, 29 for February of a leap year, 30 or 31
otherwise) - the textbook Gregorian month-length table. -/
def trueDaysInMonth (y : ℤ) (m : ℕ) : ℤ := (monthLens (decide (isLeap y))).getD m 0

/-- Spec-side: the local calendar date of the clock in YYYY-MM-DD form (what
the spec says the log keys and week dates are). -/
def localDateStr (e : Env) : String := isoDateStr (localDay e)

/-! ### The log store (JS object semantics) -/

def colonStr : String := ":"

def commaStr : String := ","

def dquoteStr : String := "\""

def lbraceStr : String := "\x7b"

def rbraceStr : String := "\x7d"

/-- A DayLog: a JS object mapping "catId:orbital" keys to epoch-ms
timestamps, as an insertion-ordered association list. -/
abbrev DayLog := List (String × ℤ)

/-- The LogStore: a JS object mapping YYYY-MM-DD keys to DayLogs. -/
abbrev LogStore := List (String × DayLog)

/-- JS object property read, obj[k] (undefined modelled as none). -/
def jsLookup {α : Type} : List (String × α) → String → Option α
  | [], _ => none
  | kv :: rest, k => if kv.1 = k then some kv.2 else jsLookup rest k

/-- JS object functional update {...obj, [k]: v}: an existing key keeps its
position and receives the new value, a new key is appended last. -/
def jsSet {α : Type} : List (String × α) → String → α → List (String × α)
  | [], k, v => [(k, v)]
  | kv :: rest, k, v => if kv.1 = k then (k, v) :: rest else kv :: jsSet rest k v

/-- logActivity (App.jsx lines 352-357), the store update:
setLogs(prev => ({...prev, [todayStr]: {...(prev[todayStr] || {}), [key]: Date.now()}}))
with key = catId + ":" + orbital; todayStr is toDateStr of the clock and ts
is the Date.now() value of the call. -/
def logActivity (logs : LogStore) (todayStr catId orbital : String) (ts : ℤ) : LogStore :=
  jsSet logs todayStr
    (jsSet ((jsLookup logs todayStr).getD []) (catId ++ colonStr ++ orbital) ts)

/-- getLoggedCatsToday (App.jsx lines 345-350), on an arbitrary DayLog: the
distinct category-id parts k.split(":")[0] of its keys; the completion
count shown in the pie center is the size of this set. -/
def loggedCats (d : DayLog) : List String :=
  (d.map (fun kv => (kv.1.splitOn colonStr).headI)).dedup

def completedCount (logs : LogStore) (todayStr : String) : ℕ :=
  (loggedCats ((jsLookup logs todayStr).getD [])).length

/-- Number of entries of a DayLog carrying a given key. -/
def countKey (d : DayLog) (k : String) : ℕ := (d.filter (fun kv => kv.1 == k)).length

/-! ### Claim C8: clearing all data -/

/-- JSON.stringify for a DayLog object (the keys the app writes contain no
characters needing JSON escaping). -/
def jsonDayLog (d : DayLog) : String :=
  lbraceStr ++ String.intercalate commaStr
    (d.map (fun kv => dquoteStr ++ kv.1 ++ dquoteStr ++ colonStr ++ toString kv.2)) ++ rbraceStr

/-- JSON.stringify for the LogStore object. -/
def jsonLogs (s : LogStore) : String :=
  lbraceStr ++ String.intercalate commaStr
    (s.map (fun kv => dquoteStr ++ kv.1 ++ dquoteStr ++ colonStr ++ jsonDayLog kv.2)) ++ rbraceStr

/-- The application state owned by the root component, with its mirror in
localStorage: logs and orbitals (App.jsx lines 319-327) and the two
persisted keys ritual_logs and ritual_orbitals. -/
structure AppState where
  logs : LogStore
  orbitals : List (String × List String)
  storedLogs : Option String
  storedOrbitals : Option String

/-- The persistence effect at App.jsx line 340: after every change of logs,
localStorage.setItem("ritual_logs", JSON.stringify(logs)). -/
def persistLogs (s : AppState) : AppState := { s with storedLogs := some (jsonLogs s.logs) }

/-- onClearData (App.jsx line 754): setLogs({}) and
localStorage.removeItem("ritual_logs"), followed by the persistence effect
reacting to the logs change. -/
def onClearData (s : AppState) : AppState :=
  persistLogs { s with logs := [], storedLogs := none }

/-! ### The category registry (App.jsx lines 9-18; the presentation fields
label, emoji, color and neon are omitted as non-semantic) -/

structure Category where
  id : String
  orbitals : List String

def DEFAULT_CATEGORIES : List Category :=
  [⟨"finance", ["Track", "Invest", "Scale"]⟩,
   ⟨"tinkering", ["Design", "Build", "Prototype"]⟩,
   ⟨"health", ["Workout", "Grooming", "Reading"]⟩,
   ⟨"homestead", ["Cook", "Preserve", "Garden"]⟩,
   ⟨"art", ["Paint", "Music", "Write"]⟩,
   ⟨"family", ["Communication", "Walk", "Pup"]⟩,
   ⟨"fellowship", ["Maker Class", "Outdoors", "Fantasy"]⟩,
   ⟨"mental", ["Meditation", "Reflection", "Stillness"]⟩]

/-! ### Orbital positions (C6) -/

/-- The per-count angular spread table (App.jsx line 378):
orbs.length === 3 and === 4 have their own tables, every other length falls
through the chained ternary to the 5-entry table. -/
def spreadFor (n : ℕ) : List ℚ :=
  if n = 3 then [-38, 0, 38] else if n = 4 then [-55, -18, 18, 55] else [-50, -25, 0, 25, 50]

/-- Orbital positions (App.jsx lines 374-384) for slice idx and orbital name
list orbs, reduced to the pair (angleDeg, dist): the code renders the point
(dist * cos rad, dist * sin rad) with rad = angleDeg * pi / 180,
angleDeg = midAngle + spread[i] - 90, midAngle = idx * 45 + 22.5 and
dist = 115.  orbs.map((_, i) => ...) uses only the index i, embedded as a
map over List.range orbs.length; spread[i] is undefined (and the rendered
position NaN) when i is outside the table, modelled as none. -/
def computePositions (idx : ℕ) (orbs : List String) : List (Option (ℚ × ℚ)) :=
  (List.range orbs.length).map (fun i =>
    ((spreadFor orbs.length).get? i).map
      (fun sp => ((idx : ℚ) * 45 + 22.5 + sp - 90, (115 : ℚ))))

/-- Spec-side: the spread table as the claim states it, for N in {3,4,5}. -/
def specSpread : ℕ → List ℚ
  | 3 => [-38, 0, 38]
  | 4 => [-55, -18, 18, 55]
  | 5 => [-50, -25, 0, 25, 50]
  | _ => []

/-! ### The gesture machine (App.jsx lines 330-405)

State of the pie view: the React state (activeSlice, orbitalPositions,
justLogged, logs, orbitals), the refs (isLongPress, pointerDownSlice,
longPressTimer.current as lpRef), the clock, and the pending setTimeout
callbacks.  Each pending timer has an identity (its setTimeout handle),
a deadline, and a job; firing is an explicit event allowed only once the
deadline has passed - the browser event loop runs the callback at some
point after the deadline, interleaved with other input events. -/

inductive TimerJob where
  | longPress (idx : ℕ)
  | notifClear

structure Timer where
  tid : ℕ
  deadline : ℤ
  job : TimerJob

structure GApp where
  now : ℤ
  logs : LogStore
  orbitals : List (String × List String)
  activeSlice : Option ℕ
  orbitalPositions : List (Option (ℚ × ℚ))
  justLogged : Option (String × String)
  isLongPress : Bool
  pointerDownSlice : Option ℕ
  lpRef : Option ℕ
  nextId : ℕ
  timers : List Timer

/-- The orbital names of slice i: orbitals[cat.id] || cat.orbitals with
cat = DEFAULT_CATEGORIES[i]. -/
def orbOf (s : GApp) (i : ℕ) : List String :=
  (jsLookup s.orbitals (DEFAULT_CATEGORIES.getD i ⟨"", []⟩).id).getD
    (DEFAULT_CATEGORIES.getD i ⟨"", []⟩).orbitals

/-- The callback bodies passed to setTimeout: the long-press callback
(App.jsx lines 370-388) flags the long press, computes the orbital
positions of the pressed slice from the orbital config (falling back to the
category defaults) and reveals the slice; the notification callback (line
359) clears justLogged unconditionally. -/
def fireJob (s : GApp) : TimerJob → GApp
  | .longPress idx =>
    { s with isLongPress := true,
             orbitalPositions := computePositions idx (orbOf s idx),
             activeSlice := some idx }
  | .notifClear => { s with justLogged := none }

/-- clearTimeout(longPressTimer.current): removes the pending timer whose
handle the ref holds; a no-op when the ref is null or that timer already
fired or was cleared. -/
def removeTimer (ts : List Timer) : Option ℕ → List Timer
  | none => ts
  | some i => ts.filter (fun t => t.tid != i)

/-- One event of the single-threaded browser event loop.  tick dt advances
the clock; pdown i is handlePointerDown on slice i; pup is handlePointerUp
and also pointer-cancel (the JSX wires onPointerCancel to handlePointerUp);
pleave is handlePointerLeave; fire tid runs the pending callback with
handle tid (only valid once its deadline has passed); orbClick j is a click
on the j-th orbital button of the active slice (the buttons exist only
while a slice is active); backdrop is a tap on the dismissal backdrop
(rendered only while a slice is active). -/
inductive Ev where
  | tick (dt : ℕ)
  | pdown (i : ℕ)
  | pup
  | pleave
  | fire (tid : ℕ)
  | orbClick (j : ℕ)
  | backdrop

/-- The state right after handlePointerDown on a valid slice index: flags
reset, slice recorded, a fresh 380 ms long-press timer appended (the
previously pending one, if any, is NOT cleared), its handle stored in the
ref. -/
def pressState (s : GApp) (i : ℕ) : GApp :=
  { s with
    isLongPress := false,
    pointerDownSlice := some i,
    timers := s.timers ++ [⟨s.nextId, s.now + 380, TimerJob.longPress i⟩],
    lpRef := some s.nextId,
    nextId := s.nextId + 1 }

/-- The state right after logActivity for orbital orb of slice i: log entry
upserted under toDateStr of the clock, notification published, a 2000 ms
clear timer appended (its handle discarded), orbitals hidden. -/
def logState (s : GApp) (i : ℕ) (orb : String) : GApp :=
  { s with
    logs := logActivity s.logs (toDateStr s.now)
      (DEFAULT_CATEGORIES.getD i ⟨"", []⟩).id orb s.now,
    justLogged := some ((DEFAULT_CATEGORIES.getD i ⟨"", []⟩).id, orb),
    timers := s.timers ++ [⟨s.nextId, s.now + 2000, TimerJob.notifClear⟩],
    nextId := s.nextId + 1,
    activeSlice := none }

/-- The event-step function of the machine (none = the event cannot occur
in this state).  pdown (App.jsx lines 364-389) resets the flags, records
the pressed slice, and schedules a fresh 380 ms long-press timer whose
handle overwrites the ref - note it does not clear a previously pending
timer.  pup and pleave (lines 391-403) clear the referenced timer and reset
the flags; they do not touch activeSlice.  orbClick (lines 352-362 via the
button onClick) runs logActivity: it upserts the log entry under toDateStr
of the clock, publishes the justLogged notification, schedules a 2000 ms
clear timer whose handle is discarded, and hides the orbitals.  backdrop
(line 405) merely hides the orbitals. -/
def step (s : GApp) : Ev → Option GApp
  | .tick dt => some { s with now := s.now + (dt : ℤ) }
  | .pdown i =>
    if i < DEFAULT_CATEGORIES.length then some (pressState s i) else none
  | .pup =>
    some { s with timers := removeTimer s.timers s.lpRef,
                  isLongPress := false,
                  pointerDownSlice := none }
  | .pleave =>
    some { s with timers := removeTimer s.timers s.lpRef,
                  isLongPress := false }
  | .fire tid =>
    match s.timers.find? (fun t => t.tid == tid) with
    | some t =>
      if t.deadline ≤ s.now then
        some (fireJob { s with timers := s.timers.filter (fun u => u.tid != tid) } t.job)
      else none
    | none => none
  | .orbClick j =>
    match s.activeSlice with
    | some i =>
      match (orbOf s i).get? j with
      | some orb => some (logState s i orb)
      | none => none
    | none => none
  | .backdrop =>
    match s.activeSlice with
    | some _ => some { s with activeSlice := none }
    | none => none

/-- Run a sequence of events. -/
def run (s : GApp) : List Ev → Option GApp
  | [] => some s
  | e :: rest => (step s e).bind (fun s2 => run s2 rest)

/-- The initial state (App.jsx lines 319-337 with empty storage): no logs,
default orbital config, nothing active, no refs set, no pending timers. -/
def initApp : GApp :=
  { now := 0, logs := [],
    orbitals := DEFAULT_CATEGORIES.map (fun c => (c.id, c.orbitals)),
    activeSlice := none, orbitalPositions := [], justLogged := none,
    isLongPress := false, pointerDownSlice := none, lpRef := none,
    nextId := 0, timers := [] }

def isLP : TimerJob → Bool
  | .longPress _ => true
  | .notifClear => false

/-- Number of pending long-press timers. -/
def lpCount (s : GApp) : ℕ := (s.timers.filter (fun t => isLP t.job)).length

/-- Number of pending notification-clear timers. -/
def notifCount (s : GApp) : ℕ := (s.timers.filter (fun t => !(isLP t.job))).length

/-- Total clock advance of a list of events. -/
def ticksSum (evs : List Ev) : ℤ :=
  (evs.map (fun e => match e with | Ev.tick dt => (dt : ℤ) | _ => 0)).sum

def tickOrFire : Ev → Bool
  | .tick _ => true
  | .fire _ => true
  | _ => false

/-- The single-pointer event discipline: with at most one pointer, a
pointer-down can occur only while no press is open, and each press stays
open until the next pointer-up or pointer-leave (pointer-cancel is wired to
the same handler as pointer-leave in App.jsx line 437). -/
def spOk : Bool → List Ev → Bool
  | _, [] => true
  | opn, Ev.pdown _ :: rest => !opn && spOk true rest
  | _, Ev.pup :: rest => spOk false rest
  | _, Ev.pleave :: rest => spOk false rest
  | opn, _ :: rest => spOk opn rest

/-- The press state after the full 380 ms have elapsed. -/
def heldState (s : GApp) (i : ℕ) : GApp :=
  { pressState s i with now := (pressState s i).now + ((380 : ℕ) : ℤ) }

def activeDemo : GApp := { initApp with activeSlice := some 0 }

/-- The final state of the short-tap trace for the C7 witness. -/
def shortTapState : GApp := (run initApp [Ev.pdown 0, Ev.tick 200, Ev.pup]).getD initApp

/-- The invariant of single-pointer operation: pending timer handles are
distinct and fresh, every pending long-press timer is the one held by the
ref, and no long-press timer is pending while no press is open. -/
def PressInv (opn : Bool) (s : GApp) : Prop :=
  (s.timers.map (fun t => t.tid)).Nodup ∧
  (∀ t ∈ s.timers, t.tid < s.nextId) ∧
  (∀ t ∈ s.timers, isLP t.job = true → some t.tid = s.lpRef) ∧
  (opn = false → lpCount s = 0)

/-- The state after one press on slice 0 from the initial state. -/
def onePress : GApp := (step initApp (Ev.pdown 0)).getD initApp

/-- The state after a press, a release, and a second press. -/
def pressTwice : GApp := (run initApp [Ev.pdown 0, Ev.pup, Ev.pdown 1]).getD initApp

/-- The state after clicking the first orbital of the active slice 0. -/
def oneClick : GApp := (step activeDemo (Ev.orbClick 0)).getD activeDemo

/-! ### Calendar lemmas -/

theorem dayFromYear_succ (y : ℤ) : dayFromYear (y + 1) = dayFromYear y + daysInYear y := by
  unfold dayFromYear daysInYear isLeap
  split <;> omega

theorem dayFromYear_periodic (e k : ℤ) :
    dayFromYear (400 * e + k) = 146097 * e + dayFromYear k := by
  unfold dayFromYear
  omega

theorem daysInYear_pos (y : ℤ) : 365 ≤ daysInYear y := by
  unfold daysInYear
  split <;> omega

theorem dayFromYear_strictMono : StrictMono dayFromYear := by
  apply strictMono_int_of_lt_succ
  intro y
  have h := dayFromYear_succ y
  have h2 := daysInYear_pos y
  omega

/-- Bracketing of the year-of-era search, within one 400-year era. -/
theorem yoe_bracket (doe : ℤ) (h0 : 0 ≤ doe) (h1 : doe < 146097) :
    ∃ yoe : ℕ, yoe ≤ 399 ∧
      Nat.findGreatest (fun k => dayFromYear (k : ℤ) - dayFromYear 0 ≤ doe) 399 = yoe ∧
      dayFromYear (yoe : ℤ) - dayFromYear 0 ≤ doe ∧
      doe < dayFromYear ((yoe : ℤ) + 1) - dayFromYear 0 := by
  refine ⟨Nat.findGreatest (fun k => dayFromYear (k : ℤ) - dayFromYear 0 ≤ doe) 399,
    ?_, rfl, ?_, ?_⟩
  · exact Nat.findGreatest_le (P := fun k => dayFromYear (k : ℤ) - dayFromYear 0 ≤ doe) 399
  · have h00 : dayFromYear ((0 : ℕ) : ℤ) - dayFromYear 0 ≤ doe := by
      simpa using h0
    exact Nat.findGreatest_spec (P := fun k => dayFromYear (k : ℤ) - dayFromYear 0 ≤ doe)
      (Nat.zero_le 399) h00
  · set yoe := Nat.findGreatest (fun k => dayFromYear (k : ℤ) - dayFromYear 0 ≤ doe) 399 with hy
    rcases Nat.lt_or_ge yoe 399 with hlt | hge
    · have hng :=
        Nat.findGreatest_is_greatest (P := fun k => dayFromYear (k : ℤ) - dayFromYear 0 ≤ doe)
          (n := 399) (k := yoe + 1) (Nat.lt_succ_self yoe) (by omega)
      have hng2 : ¬ dayFromYear ((yoe + 1 : ℕ) : ℤ) - dayFromYear 0 ≤ doe := hng
      have hc : ((yoe + 1 : ℕ) : ℤ) = (yoe : ℤ) + 1 := by push_cast; ring
      rw [hc] at hng2
      omega
    · have h399 : yoe = 399 := le_antisymm (Nat.findGreatest_le 399) hge
      have h400 : dayFromYear 400 = 146097 + dayFromYear 0 := by
        have h := dayFromYear_periodic 1 0
        norm_num at h
        exact h
      rw [h399]
      have hc : ((399 : ℕ) : ℤ) + 1 = 400 := by norm_num
      rw [hc]
      omega

/-- The located year starts on or before the day, and the day falls strictly
before the start of the next year. -/
theorem yearFromDay_bracket (z : ℤ) :
    dayFromYear (yearFromDay z) ≤ z ∧ z < dayFromYear (yearFromDay z + 1) := by
  obtain ⟨yoe, hle, heq, hlo, hhi⟩ :=
    yoe_bracket ((z - dayFromYear 0) % 146097)
      (Int.emod_nonneg _ (by norm_num)) (Int.emod_lt_of_pos _ (by norm_num))
  have hz := Int.ediv_add_emod (z - dayFromYear 0) 146097
  have hyz : yearFromDay z = 400 * ((z - dayFromYear 0) / 146097) + (yoe : ℤ) := by
    unfold yearFromDay
    rw [heq]
  have hp1 := dayFromYear_periodic ((z - dayFromYear 0) / 146097) (yoe : ℤ)
  have hp2 := dayFromYear_periodic ((z - dayFromYear 0) / 146097) ((yoe : ℤ) + 1)
  constructor
  · rw [hyz, hp1]
    omega
  · have hstep : yearFromDay z + 1 = 400 * ((z - dayFromYear 0) / 146097) + ((yoe : ℤ) + 1) := by
      rw [hyz]; ring
    rw [hstep, hp2]
    omega

/-- Uniqueness: any year that brackets the day is the year of the day. -/
theorem yearFromDay_eq (z y : ℤ) (h1 : dayFromYear y ≤ z) (h2 : z < dayFromYear (y + 1)) :
    yearFromDay z = y := by
  obtain ⟨hb1, hb2⟩ := yearFromDay_bracket z
  by_contra hne
  rcases lt_or_gt_of_ne hne with hlt | hgt
  · have hstep : yearFromDay z + 1 ≤ y := by omega
    have hm : dayFromYear (yearFromDay z + 1) ≤ dayFromYear y :=
      dayFromYear_strictMono.monotone hstep
    omega
  · have hstep : y + 1 ≤ yearFromDay z := by omega
    have hm : dayFromYear (y + 1) ≤ dayFromYear (yearFromDay z) :=
      dayFromYear_strictMono.monotone hstep
    omega

theorem monthStart_zero (l : Bool) : monthStart l 0 = 0 := by
  cases l <;> rfl

theorem monthStart_succ_fin : ∀ l : Bool, ∀ m : Fin 12,
    monthStart l (m.1 + 1) = monthStart l m.1 + (monthLens l).getD m.1 0 := by
  decide

theorem monthStart_succ (l : Bool) (m : ℕ) (hm : m < 12) :
    monthStart l (m + 1) = monthStart l m + (monthLens l).getD m 0 :=
  monthStart_succ_fin l ⟨m, hm⟩

theorem monthStart_mono_fin : ∀ l : Bool, ∀ a b : Fin 13,
    a.1 ≤ b.1 → monthStart l a.1 ≤ monthStart l b.1 := by
  decide

theorem monthStart_mono (l : Bool) (a b : ℕ) (hab : a ≤ b) (hb : b ≤ 12) :
    monthStart l a ≤ monthStart l b :=
  monthStart_mono_fin l ⟨a, by omega⟩ ⟨b, by omega⟩ hab

theorem monthStart_twelve : ∀ l : Bool, monthStart l 12 = if l then 366 else 365 := by
  decide

theorem monthLens_pos_fin : ∀ l : Bool, ∀ m : Fin 12, 1 ≤ (monthLens l).getD m.1 0 := by
  decide

theorem monthStart_twelve_daysInYear (y : ℤ) :
    monthStart (decide (isLeap y)) 12 = daysInYear y := by
  by_cases h : isLeap y
  · simp [monthStart_twelve, daysInYear, h]
  · simp [monthStart_twelve, daysInYear, h]

/-- Bracketing of the month search within a year. -/
theorem monthFromDoy_bracket (l : Bool) (doy : ℤ) (h0 : 0 ≤ doy) (h1 : doy < monthStart l 12) :
    monthFromDoy l doy ≤ 11 ∧
    monthStart l (monthFromDoy l doy) ≤ doy ∧
    doy < monthStart l (monthFromDoy l doy + 1) := by
  refine ⟨Nat.findGreatest_le (P := fun m => monthStart l m ≤ doy) 11, ?_, ?_⟩
  · have h00 : monthStart l 0 ≤ doy := by rw [monthStart_zero]; exact h0
    exact Nat.findGreatest_spec (P := fun m => monthStart l m ≤ doy) (Nat.zero_le 11) h00
  · set m := monthFromDoy l doy with hm
    rcases Nat.lt_or_ge m 11 with hlt | hge
    · have hng :=
        Nat.findGreatest_is_greatest (P := fun k => monthStart l k ≤ doy)
          (n := 11) (k := m + 1) (Nat.lt_succ_self m) (by omega)
      have hng2 : ¬ monthStart l (m + 1) ≤ doy := hng
      omega
    · have h11 : m = 11 := le_antisymm (Nat.findGreatest_le 11) hge
      rw [h11]
      have h12 : (11 : ℕ) + 1 = 12 := by norm_num
      rw [h12]
      exact h1

/-- Uniqueness of the month bracketing. -/
theorem monthFromDoy_eq (l : Bool) (m : ℕ) (doy : ℤ) (hm : m ≤ 11)
    (h1 : monthStart l m ≤ doy) (h2 : doy < monthStart l (m + 1)) :
    monthFromDoy l doy = m := by
  have h0m : (0 : ℤ) ≤ monthStart l m := by
    have := monthStart_mono l 0 m (Nat.zero_le m) (by omega)
    rw [monthStart_zero] at this
    exact this
  have h0 : 0 ≤ doy := le_trans h0m h1
  apply le_antisymm
  · by_contra hgt
    push_neg at hgt
    have hfg : monthFromDoy l doy ≤ 11 := Nat.findGreatest_le (P := fun k => monthStart l k ≤ doy) 11
    have hPfg : monthStart l (monthFromDoy l doy) ≤ doy := by
      have h00 : monthStart l 0 ≤ doy := by rw [monthStart_zero]; exact h0
      exact Nat.findGreatest_spec (P := fun k => monthStart l k ≤ doy) (Nat.zero_le 11) h00
    have hmono : monthStart l (m + 1) ≤ monthStart l (monthFromDoy l doy) :=
      monthStart_mono l (m + 1) (monthFromDoy l doy) (by omega) (by omega)
    omega
  · exact Nat.le_findGreatest hm h1

/-- ECMA-262 MakeDay inverts the civil extraction: for every day number z,
rebuilding a day from the extracted (year, month, day) gives back z. -/
theorem makeDay_civil (z : ℤ) :
    makeDay (civilFromDay z).1 ((civilFromDay z).2.1 : ℤ) (civilFromDay z).2.2 = z := by
  have hm : (civilFromDay z).2.1 ≤ 11 :=
    Nat.findGreatest_le (P := fun k => monthStart (decide (isLeap (yearFromDay z))) k ≤
      z - dayFromYear (yearFromDay z)) 11
  unfold makeDay
  have h12 : ((civilFromDay z).2.1 : ℤ) / 12 = 0 := by omega
  have h12b : ((((civilFromDay z).2.1 : ℤ)) % 12).toNat = (civilFromDay z).2.1 := by omega
  rw [h12, h12b, add_zero]
  show dayFromYear (yearFromDay z) +
      monthStart (decide (isLeap (yearFromDay z)))
        (monthFromDoy (decide (isLeap (yearFromDay z))) (z - dayFromYear (yearFromDay z))) +
      (z - dayFromYear (yearFromDay z)
        - monthStart (decide (isLeap (yearFromDay z)))
            (monthFromDoy (decide (isLeap (yearFromDay z))) (z - dayFromYear (yearFromDay z)))
        + 1) - 1 = z
  ring

/-- MakeDay is an offset in its day argument. -/
theorem makeDay_add (y m d t : ℤ) : makeDay y m (d + t) = makeDay y m d + t := by
  unfold makeDay
  ring

/-- Determinism: the civil extraction of a validly constructed day is the
constructing triple. -/
theorem civilFromDay_valid (y : ℤ) (m : ℕ) (d : ℤ) (hm : m ≤ 11) (hd1 : 1 ≤ d)
    (hd2 : d ≤ (monthLens (decide (isLeap y))).getD m 0) :
    civilFromDay (dayFromYear y + monthStart (decide (isLeap y)) m + d - 1) = (y, m, d) := by
  have h0m : (0 : ℤ) ≤ monthStart (decide (isLeap y)) m := by
    have := monthStart_mono (decide (isLeap y)) 0 m (Nat.zero_le m) (by omega)
    rw [monthStart_zero] at this
    exact this
  have hsucc := monthStart_succ (decide (isLeap y)) m (by omega)
  have hm12 : monthStart (decide (isLeap y)) (m + 1) ≤ monthStart (decide (isLeap y)) 12 :=
    monthStart_mono (decide (isLeap y)) (m + 1) 12 (by omega) (by omega)
  have hdiy := monthStart_twelve_daysInYear y
  have hsy := dayFromYear_succ y
  have hz1 : dayFromYear y ≤ dayFromYear y + monthStart (decide (isLeap y)) m + d - 1 := by
    omega
  have hz2 : dayFromYear y + monthStart (decide (isLeap y)) m + d - 1 < dayFromYear (y + 1) := by
    omega
  have hy : yearFromDay (dayFromYear y + monthStart (decide (isLeap y)) m + d - 1) = y :=
    yearFromDay_eq _ y hz1 hz2
  have hmo : monthFromDoy (decide (isLeap y))
      (dayFromYear y + monthStart (decide (isLeap y)) m + d - 1 - dayFromYear y) = m := by
    apply monthFromDoy_eq (decide (isLeap y)) m _ hm
    · omega
    · omega
  unfold civilFromDay
  rw [hy, hmo]
  have h3 : dayFromYear y + monthStart (decide (isLeap y)) m + d - 1 - dayFromYear y
      - monthStart (decide (isLeap y)) m + 1 = d := by ring
  rw [h3]

/-! ### Lemmas about the date bucketing -/

theorem msDay_day (x : ℤ) : msDay (x * 86400000) = x := by
  unfold msDay
  exact Int.mul_ediv_cancel x (by norm_num)

theorem localDay_tz0 (e : Env) (h0 : e.tzMin = 0) : localDay e = msDay e.nowMs := by
  unfold localDay localMs
  rw [h0]
  norm_num

theorem remapYear_eq (y : ℤ) (h : 101 ≤ y) : remapYear y = y := by
  unfold remapYear
  rw [if_neg]
  omega

theorem monLocalDay_eq (e : Env) : monLocalDay e = monDayOf e := by
  unfold monLocalDay monMs
  have h : monDayOf e * 86400000 - e.tzMin * 60000 + e.tzMin * 60000 =
      monDayOf e * 86400000 := by ring
  rw [h, msDay_day]

theorem monDayOf_formula (e : Env)
    (hremap : remapYear (civilFromDay (localDay e)).1 = (civilFromDay (localDay e)).1) :
    monDayOf e = localDay e - jsWeekday (localDay e) +
      (if jsWeekday (localDay e) = 0 then -6 else 1) := by
  unfold monDayOf
  rw [hremap]
  have h3 : (civilFromDay (localDay e)).2.2 - jsWeekday (localDay e) +
      (if jsWeekday (localDay e) = 0 then -6 else 1) =
      (civilFromDay (localDay e)).2.2 + (-(jsWeekday (localDay e)) +
        (if jsWeekday (localDay e) = 0 then -6 else 1)) := by ring
  rw [h3, makeDay_add, makeDay_civil]
  ring

theorem weekDayEntry_tz0 (e : Env) (h0 : e.tzMin = 0) (i : ℕ) :
    weekDayEntry e i = monDayOf e + (i : ℤ) := by
  unfold weekDayEntry
  rw [h0, monLocalDay_eq, makeDay_add, makeDay_civil]
  norm_num
  rw [msDay_day]

/-! ### Claim C3 -/

/-- C3 counterexample: the claim says currentWeekDates always returns 7
consecutive dates the first of which is a Monday.  In an environment one
hour east of UTC (tzMin = 60), at clock 1717975800000 (local civil time
2024-06-10 00:30, a Monday), getWeekDates returns the strings 2024-06-09 ..
2024-06-15.  The first entry is the UTC day number 19883, whose date string
is 2024-06-09 and whose weekday is 0 (Sunday), not Monday: the code derives
the Monday from the local clock but formats the dates with the UTC-based
toISOString, shifting every entry one day back for positive offsets. -/
theorem C3_counterexample :
    getWeekDates ⟨1717975800000, 60⟩ =
      ["2024-06-09", "2024-06-10", "2024-06-11", "2024-06-12", "2024-06-13",
       "2024-06-14", "2024-06-15"] ∧
    (getWeekDays ⟨1717975800000, 60⟩).headD 0 = 19883 ∧
    isoDateStr 19883 = "2024-06-09" ∧
    jsWeekday 19883 = 0 ∧
    localDateStr ⟨1717975800000, 60⟩ = "2024-06-10" ∧
    jsWeekday (localDay ⟨1717975800000, 60⟩) = 1 := by
  decide

/-- C3 amended: in an environment whose local-time offset is zero (so the
local clock and the UTC-based toISOString agree), and whose current year is
between 101 and 275000 (below 101 the two-digit-year rule of the Date
constructor corrupts the week start; above 8.64e15 ms toISOString throws),
getWeekDates returns the date strings of 7 consecutive day numbers, the
first of which is a Monday (jsWeekday 1, also when today is a Sunday), and
the UTC day of the clock is among the 7. -/
theorem C3_amended (e : Env) (h0 : e.tzMin = 0)
    (hy1 : 101 ≤ (civilFromDay (msDay e.nowMs)).1)
    (_hy2 : (civilFromDay (msDay e.nowMs)).1 ≤ 275000) :
    ∃ mondayD : ℤ, ∃ k : ℕ,
      jsWeekday mondayD = 1 ∧ k < 7 ∧ msDay e.nowMs = mondayD + (k : ℤ) ∧
      getWeekDates e = (List.range 7).map (fun i : ℕ => isoDateStr (mondayD + (i : ℤ))) ∧
      toDateStr e.nowMs = isoDateStr (mondayD + (k : ℤ)) := by
  have hld : localDay e = msDay e.nowMs := localDay_tz0 e h0
  have hremap : remapYear (civilFromDay (localDay e)).1 = (civilFromDay (localDay e)).1 := by
    rw [hld]
    exact remapYear_eq _ hy1
  have hmon := monDayOf_formula e hremap
  have hwk : 0 ≤ jsWeekday (localDay e) ∧ jsWeekday (localDay e) < 7 := by
    unfold jsWeekday
    omega
  have hk : msDay e.nowMs = monDayOf e +
      ((if jsWeekday (localDay e) = 0 then 6 else (jsWeekday (localDay e) - 1).toNat : ℕ) : ℤ) := by
    rw [← hld, hmon]
    by_cases h : jsWeekday (localDay e) = 0
    · rw [if_pos h, if_pos h]
      omega
    · rw [if_neg h, if_neg h]
      omega
  refine ⟨monDayOf e, (if jsWeekday (localDay e) = 0 then 6 else (jsWeekday (localDay e) - 1).toNat),
    ?_, ?_, hk, ?_, ?_⟩
  · rw [hmon]
    by_cases h : jsWeekday (localDay e) = 0
    · rw [if_pos h]
      unfold jsWeekday at h ⊢
      omega
    · rw [if_neg h]
      unfold jsWeekday at h ⊢
      omega
  · by_cases h : jsWeekday (localDay e) = 0
    · rw [if_pos h]
      omega
    · rw [if_neg h]
      omega
  · unfold getWeekDates getWeekDays
    rw [List.map_map]
    refine List.map_congr_left ?_
    intro i _
    show isoDateStr (weekDayEntry e i) = isoDateStr (monDayOf e + (i : ℤ))
    rw [weekDayEntry_tz0 e h0 i]
  · unfold toDateStr
    rw [hk]

/-- C3 witness: the amended statement at the concrete clock 1718020800000
(2024-06-10 noon UTC) with offset 0. -/
theorem C3_witness :
    (⟨1718020800000, 0⟩ : Env).tzMin = 0 ∧
    101 ≤ (civilFromDay (msDay ((⟨1718020800000, 0⟩ : Env).nowMs))).1 ∧
    (∃ mondayD : ℤ, ∃ k : ℕ,
      jsWeekday mondayD = 1 ∧ k < 7 ∧
      msDay ((⟨1718020800000, 0⟩ : Env).nowMs) = mondayD + (k : ℤ) ∧
      getWeekDates ⟨1718020800000, 0⟩ =
        (List.range 7).map (fun i : ℕ => isoDateStr (mondayD + (i : ℤ))) ∧
      toDateStr ((⟨1718020800000, 0⟩ : Env).nowMs) = isoDateStr (mondayD + (k : ℤ))) := by
  refine ⟨rfl, by decide, ?_⟩
  exact C3_amended ⟨1718020800000, 0⟩ rfl (by decide) (by decide)

/-! ### Claim C9 -/

theorem monthLens_getD_eleven : ∀ l : Bool, (monthLens l).getD 11 0 = 31 := by
  decide

theorem monthLens_getD_ne_one : ∀ (l l' : Bool), ∀ m : Fin 12, m.1 ≠ 1 →
    (monthLens l).getD m.1 0 = (monthLens l').getD m.1 0 := by
  decide

theorem isLeap_add_1900 (y : ℤ) (h1 : 1 ≤ y) (h2 : y ≤ 99) :
    isLeap (y + 1900) ↔ isLeap y := by
  unfold isLeap
  omega

/-- new Date(Y, m + 1, 0).getDate() is the length of 0-based month m of
year Y (the day-0 underflow lands on the last day of the previous month). -/
theorem makeDay_month_zero_day (Y : ℤ) (m : ℕ) (hm : m ≤ 11) :
    (civilFromDay (makeDay Y ((m : ℤ) + 1) 0)).2.2 =
      (monthLens (decide (isLeap Y))).getD m 0 := by
  rcases Nat.lt_or_ge m 11 with hlt | hge
  · have hsucc := monthStart_succ (decide (isLeap Y)) m (by omega)
    have hpos : 1 ≤ (monthLens (decide (isLeap Y))).getD m 0 :=
      monthLens_pos_fin (decide (isLeap Y)) ⟨m, by omega⟩
    have harg : makeDay Y ((m : ℤ) + 1) 0 =
        dayFromYear Y + monthStart (decide (isLeap Y)) m +
          (monthLens (decide (isLeap Y))).getD m 0 - 1 := by
      unfold makeDay
      have h12 : ((m : ℤ) + 1) / 12 = 0 := by omega
      have h12b : (((m : ℤ) + 1) % 12).toNat = m + 1 := by omega
      rw [h12, h12b]
      simp only [add_zero]
      omega
    rw [harg, civilFromDay_valid Y m _ hm hpos (le_refl _)]
  · have h11 : m = 11 := le_antisymm hm hge
    subst h11
    have hsucc : ∀ l : Bool, monthStart l 12 = monthStart l 11 + 31 := by decide
    have h31 := monthLens_getD_eleven (decide (isLeap Y))
    have hdiy := monthStart_twelve_daysInYear Y
    have hsy := dayFromYear_succ Y
    have harg : makeDay Y (((11 : ℕ) : ℤ) + 1) 0 =
        dayFromYear Y + monthStart (decide (isLeap Y)) 11 + 31 - 1 := by
      unfold makeDay
      have hc : (((11 : ℕ) : ℤ) + 1) = 12 := by norm_num
      rw [hc]
      have h12 : (12 : ℤ) / 12 = 1 := by norm_num
      have h12b : ((12 : ℤ) % 12).toNat = 0 := by norm_num
      rw [h12, h12b, monthStart_zero]
      have hs12 := hsucc (decide (isLeap (Y + 1)))
      have hs12b := hsucc (decide (isLeap Y))
      omega
    rw [harg, civilFromDay_valid Y 11 31 (by omega) (by omega) (le_of_eq h31.symm)]
    exact h31.symm

/-- C9 counterexample: the claim quantifies over every year; at year 0,
month 1 (February of year 0), getMonthDays returns 28 entries although year
0 is a Gregorian leap year whose February has 29 days: the Date constructor
reads the year argument 0 as 1900 (two-digit-year rule) and 1900 is a
common year. -/
theorem C9_counterexample :
    (getMonthDays ⟨0, 0⟩ 0 1).length = 28 ∧ trueDaysInMonth 0 1 = 29 := by
  constructor
  · decide
  · decide

/-- C9 amended: for every year y and 0-based month m with 0 <= m <= 11,
provided the constructed end-of-month Date lies in the representable range
of plus or minus 8.64e15 ms (outside it TimeClip makes the Date invalid and the code
returns the empty list), and except February of year 0 (where the
two-digit-year rule makes the code count the days of February 1900),
getMonthDays y m returns exactly the true number of days of that month, as
the date strings of days 1, 2, ... in ascending day order. -/
theorem C9_amended (e : Env) (y : ℤ) (m : ℕ) (hm : m ≤ 11) (hne : ¬(y = 0 ∧ m = 1))
    (hclip : -(8640000000000000 : ℤ) ≤ makeDay (remapYear y) ((m : ℤ) + 1) 0 * 86400000 -
        e.tzMin * 60000 ∧
      makeDay (remapYear y) ((m : ℤ) + 1) 0 * 86400000 - e.tzMin * 60000 ≤
        (8640000000000000 : ℤ)) :
    getMonthDays e y (m : ℤ) =
      (List.range (trueDaysInMonth y m).toNat).map
        (fun i => toString y ++ dashStr ++ pad2 ((m : ℤ) + 1) ++ dashStr ++ pad2 ((i : ℤ) + 1)) := by
  have hcount : (civilFromDay (makeDay (remapYear y) ((m : ℤ) + 1) 0)).2.2 =
      trueDaysInMonth y m := by
    rw [makeDay_month_zero_day (remapYear y) m hm]
    unfold trueDaysInMonth
    by_cases hr : 0 ≤ y ∧ y ≤ 99
    · have hry : remapYear y = y + 1900 := by
        unfold remapYear
        rw [if_pos hr]
      rw [hry]
      by_cases hm1 : m = 1
      · subst hm1
        have hy0 : y ≠ 0 := fun h => hne ⟨h, rfl⟩
        have hiff := isLeap_add_1900 y (by omega) hr.2
        have hdec : decide (isLeap (y + 1900)) = decide (isLeap y) :=
          decide_eq_decide.mpr hiff
        rw [hdec]
      · exact monthLens_getD_ne_one _ _ ⟨m, by omega⟩ hm1
    · have hry : remapYear y = y := by
        unfold remapYear
        rw [if_neg hr]
      rw [hry]
  unfold getMonthDays
  rw [if_pos hclip, hcount]

/-- C9 witness: the amended statement at February 2024 (a leap year, 29
entries), at UTC offset 0. -/
theorem C9_witness :
    (1 : ℕ) ≤ 11 ∧ ¬((2024 : ℤ) = 0 ∧ (1 : ℕ) = 1) ∧
    (-(8640000000000000 : ℤ) ≤ makeDay (remapYear 2024) (((1 : ℕ) : ℤ) + 1) 0 * 86400000 -
        (Env.mk 0 0).tzMin * 60000 ∧
      makeDay (remapYear 2024) (((1 : ℕ) : ℤ) + 1) 0 * 86400000 - (Env.mk 0 0).tzMin * 60000 ≤
        (8640000000000000 : ℤ)) ∧
    getMonthDays ⟨0, 0⟩ 2024 ((1 : ℕ) : ℤ) =
      (List.range (trueDaysInMonth 2024 1).toNat).map
        (fun i => toString (2024 : ℤ) ++ dashStr ++ pad2 (((1 : ℕ) : ℤ) + 1) ++ dashStr ++
          pad2 ((i : ℤ) + 1)) := by
  refine ⟨by decide, by decide, by decide, ?_⟩
  exact C9_amended ⟨0, 0⟩ 2024 1 (by decide) (by decide) (by decide)

/-! ### Store lemmas -/

theorem jsLookup_jsSet_self {α : Type} (l : List (String × α)) (k : String) (v : α) :
    jsLookup (jsSet l k v) k = some v := by
  induction l with
  | nil => simp [jsSet, jsLookup]
  | cons kv rest ih =>
    by_cases h : kv.1 = k
    · simp [jsSet, jsLookup, h]
    · simp [jsSet, jsLookup, h, ih]

theorem jsLookup_jsSet_ne {α : Type} (l : List (String × α)) (k : String) (v : α)
    (d : String) (h : d ≠ k) : jsLookup (jsSet l k v) d = jsLookup l d := by
  induction l with
  | nil => simp [jsSet, jsLookup, Ne.symm h]
  | cons kv rest ih =>
    by_cases hh : kv.1 = k
    · subst hh
      simp [jsSet, jsLookup, Ne.symm h]
    · by_cases hd : kv.1 = d
      · simp [jsSet, jsLookup, hh, hd, h]
      · simp [jsSet, jsLookup, hh, hd, h, ih]

theorem keys_jsSet {α : Type} (l : List (String × α)) (k : String) (v : α) :
    (jsSet l k v).map Prod.fst =
      if k ∈ l.map Prod.fst then l.map Prod.fst else l.map Prod.fst ++ [k] := by
  induction l with
  | nil => simp [jsSet]
  | cons kv rest ih =>
    by_cases h : kv.1 = k
    · simp [jsSet, h]
    · have hne : ¬ k = kv.1 := fun hk => h hk.symm
      simp only [jsSet, if_neg h, List.map_cons, List.mem_cons, hne, false_or, ih]
      split_ifs with hmem
      · rfl
      · rfl

theorem mem_keys_jsSet {α : Type} (l : List (String × α)) (k : String) (v : α) :
    k ∈ (jsSet l k v).map Prod.fst := by
  rw [keys_jsSet]
  split_ifs with h
  · exact h
  · simp

theorem nodup_keys_jsSet {α : Type} (l : List (String × α)) (k : String) (v : α)
    (h : (l.map Prod.fst).Nodup) : ((jsSet l k v).map Prod.fst).Nodup := by
  rw [keys_jsSet]
  split_ifs with hmem
  · exact h
  · refine List.Nodup.append h (List.nodup_singleton k) ?_
    intro x hx hx2
    simp only [List.mem_singleton] at hx2
    subst hx2
    exact hmem hx

theorem countKey_eq_zero (d : DayLog) (k : String) (h : k ∉ d.map Prod.fst) :
    countKey d k = 0 := by
  induction d with
  | nil => rfl
  | cons kv rest ih =>
    simp only [List.map_cons, List.mem_cons] at h
    push_neg at h
    have hne : (kv.1 == k) = false := by
      simp only [beq_eq_false_iff_ne, ne_eq]
      exact fun hk => h.1 hk.symm
    have hz := ih h.2
    unfold countKey at hz ⊢
    simp [List.filter_cons, hne, hz]

theorem countKey_eq_one (d : DayLog) (k : String) (hn : (d.map Prod.fst).Nodup)
    (hm : k ∈ d.map Prod.fst) : countKey d k = 1 := by
  induction d with
  | nil => simp at hm
  | cons kv rest ih =>
    simp only [List.map_cons, List.nodup_cons] at hn
    simp only [List.map_cons, List.mem_cons] at hm
    by_cases h : kv.1 = k
    · have hpos : (kv.1 == k) = true := by simp [h]
      have hz : countKey rest k = 0 := countKey_eq_zero rest k (by rw [← h]; exact hn.1)
      unfold countKey at hz ⊢
      simp [List.filter_cons, hpos, hz]
    · have hneb : (kv.1 == k) = false := by simp [h]
      have hm2 : k ∈ rest.map Prod.fst := by
        rcases hm with hm | hm
        · exact absurd hm.symm h
        · exact hm
      have hone := ih hn.2 hm2
      unfold countKey at hone ⊢
      simp [List.filter_cons, hneb, hone]

/-- The DayLog bucket that a logActivity call leaves at its date key. -/
theorem logActivity_day (logs : LogStore) (d c o : String) (ts : ℤ) :
    (jsLookup (logActivity logs d c o ts) d).getD [] =
      jsSet ((jsLookup logs d).getD []) (c ++ colonStr ++ o) ts := by
  unfold logActivity
  rw [jsLookup_jsSet_self]
  rfl

/-! ### Claim C1 -/

/-- C1: for every prior store whose day bucket at date d has no duplicate
keys (an invariant of JS objects), calling recordActivity(c,o) twice on the
same day leaves exactly one key c ++ ":" ++ o in that DayLog, and its
timestamp is the one of the second call (idempotent key, last write wins;
logging twice never creates two entries). -/
theorem C1_logActivity_idempotent (logs : LogStore) (d c o : String) (t1 t2 : ℤ)
    (hw : (((jsLookup logs d).getD []).map Prod.fst).Nodup) :
    countKey ((jsLookup (logActivity (logActivity logs d c o t1) d c o t2) d).getD [])
      (c ++ colonStr ++ o) = 1 ∧
    jsLookup ((jsLookup (logActivity (logActivity logs d c o t1) d c o t2) d).getD [])
      (c ++ colonStr ++ o) = some t2 := by
  rw [logActivity_day, logActivity_day]
  constructor
  · exact countKey_eq_one _ _ (nodup_keys_jsSet _ _ _ (nodup_keys_jsSet _ _ _ hw))
      (mem_keys_jsSet _ _ _)
  · exact jsLookup_jsSet_self _ _ _

/-- C1 witness: the double call on the empty store. -/
theorem C1_witness :
    ((((jsLookup ([] : LogStore) ("2024-06-10")).getD []).map Prod.fst)).Nodup ∧
    countKey ((jsLookup (logActivity (logActivity [] ("2024-06-10") ("finance") ("Track") 1)
        ("2024-06-10") ("finance") ("Track") 2) ("2024-06-10")).getD [])
      (("finance") ++ colonStr ++ ("Track")) = 1 ∧
    jsLookup ((jsLookup (logActivity (logActivity [] ("2024-06-10") ("finance") ("Track") 1)
        ("2024-06-10") ("finance") ("Track") 2) ("2024-06-10")).getD [])
      (("finance") ++ colonStr ++ ("Track")) = some 2 := by
  refine ⟨by decide, ?_, ?_⟩
  · exact (C1_logActivity_idempotent [] ("2024-06-10") ("finance") ("Track") 1 2 (by decide)).1
  · exact (C1_logActivity_idempotent [] ("2024-06-10") ("finance") ("Track") 1 2 (by decide)).2

/-! ### Claim C2 -/

/-- C2 counterexample: the claim says the entry is stored under the local
calendar date of the call.  In an environment one hour east of UTC (tzMin =
60) at clock 1717975800000 (local civil time 2024-06-10 00:30), the local
calendar date is 2024-06-10 but the store key the code computes -
toDateStr, the date part of toISOString - is the UTC date 2024-06-09, so the
resulting store is {"2024-06-09": {"finance:Track": ts}}, not keyed by the
local date. -/
theorem C2_counterexample :
    logActivity [] (toDateStr ((⟨1717975800000, 60⟩ : Env).nowMs)) ("finance") ("Track")
        1717975800000 =
      [(("2024-06-09" : String), [(("finance:Track" : String), (1717975800000 : ℤ))])] ∧
    localDateStr ⟨1717975800000, 60⟩ = "2024-06-10" ∧
    toDateStr ((⟨1717975800000, 60⟩ : Env).nowMs) = "2024-06-09" ∧
    ("2024-06-09" : String) ≠ ("2024-06-10" : String) := by
  refine ⟨by decide, by decide, by decide, by decide⟩

/-- C2 amended: recordActivity stores the entry under the UTC calendar date
of the clock (the date part of toISOString) - which coincides with the local
date exactly when the instant falls on the same calendar day in both, in
particular at offset 0.  General part: the bucket at the UTC date key gets
the entry under c ++ ":" ++ o with the call timestamp, and every other date
key of the store is untouched.  Scenario part: with the clock fixed at
2024-06-10 12:00 UTC (offset 0), recordActivity("finance","Track") on the
empty store yields exactly {"2024-06-10": {"finance:Track": ts}} and the
completion count for that day is 1. -/
theorem C2_amended :
    (∀ (logs : LogStore) (c o : String) (t : ℤ),
      jsLookup (logActivity logs (toDateStr t) c o t) (toDateStr t) =
        some (jsSet ((jsLookup logs (toDateStr t)).getD []) (c ++ colonStr ++ o) t) ∧
      jsLookup ((jsLookup (logActivity logs (toDateStr t) c o t) (toDateStr t)).getD [])
        (c ++ colonStr ++ o) = some t ∧
      (∀ d : String, d ≠ toDateStr t →
        jsLookup (logActivity logs (toDateStr t) c o t) d = jsLookup logs d)) ∧
    logActivity [] (toDateStr 1718020800000) ("finance") ("Track") 1718020800000 =
      [(("2024-06-10" : String), [(("finance:Track" : String), (1718020800000 : ℤ))])] ∧
    completedCount
      (logActivity [] (toDateStr 1718020800000) ("finance") ("Track") 1718020800000)
      (toDateStr 1718020800000) = 1 := by
  refine ⟨?_, by decide, by decide⟩
  intro logs c o t
  refine ⟨?_, ?_, ?_⟩
  · unfold logActivity
    rw [jsLookup_jsSet_self]
  · rw [logActivity_day]
    exact jsLookup_jsSet_self _ _ _
  · intro d hd
    unfold logActivity
    exact jsLookup_jsSet_ne _ _ _ _ hd

/-- C2 witness: the frame part of the amended statement at concrete input -
a foreign date key is untouched by a log call. -/
theorem C2_witness :
    (("1999-01-01" : String) ≠ toDateStr 0) ∧
    jsLookup (logActivity [] (toDateStr 0) ("finance") ("Track") 0) ("1999-01-01") =
      jsLookup ([] : LogStore) ("1999-01-01") := by
  refine ⟨by decide, ?_⟩
  exact (C2_amended.1 [] ("finance") ("Track") 0).2.2 ("1999-01-01") (by decide)

/-- C8: from every prior state, clearing all data leaves the LogStore empty
and persists the empty object, while the OrbitalConfig - in memory and
persisted - is completely unchanged. -/
theorem C8_clear_logs (s : AppState) :
    (onClearData s).logs = [] ∧
    (onClearData s).storedLogs = some ("\x7b\x7d") ∧
    (onClearData s).orbitals = s.orbitals ∧
    (onClearData s).storedOrbitals = s.storedOrbitals := by
  refine ⟨rfl, ?_, rfl, rfl⟩
  show some (jsonLogs []) = some ("\x7b\x7d")
  rfl

/-- C6 counterexample: the claim says that for any other N the N points are
distributed evenly across an equivalent span.  For a category configured
with 6 orbitals the code still uses the 5-entry fallback table, so the 6th
orbital has no defined offset at all: its position is spread[5] = undefined
(rendered as NaN, modelled none) - not a point at the fixed radius. -/
theorem C6_counterexample :
    (computePositions 0 ["a", "b", "c", "d", "e", "f"]).length = 6 ∧
    (computePositions 0 ["a", "b", "c", "d", "e", "f"]).get? 5 = some none := by
  refine ⟨by decide, by decide⟩

/-- C6 amended: for N in {3,4,5} orbitals the computed positions are exactly
N points at the fixed radius 115, angularly centred on the middle angle
idx * 45 + 22.5 of the pressed slice, with the per-count offsets of the
spread table (3: [-38,0,38], 4: [-55,-18,18,55], 5: [-50,-25,0,25,50]) and
the angle measured from vertical (the -90 degree offset); for any other N
the code reuses the 5-entry table (truncated below 5, undefined offsets
beyond index 4) instead of distributing the points evenly. -/
theorem C6_amended (idx : ℕ) (orbs : List String)
    (h : orbs.length = 3 ∨ orbs.length = 4 ∨ orbs.length = 5) :
    computePositions idx orbs =
      (specSpread orbs.length).map
        (fun sp => some (((idx : ℚ) * 45 + 22.5 + sp - 90, (115 : ℚ)))) := by
  unfold computePositions spreadFor specSpread
  rcases h with h | h | h <;> rw [h] <;> rfl

/-- C6 witness: the amended statement for slice 2 with the three default
finance orbitals. -/
theorem C6_witness :
    (["Track", "Invest", "Scale"] : List String).length = 3 ∧
    computePositions 2 ["Track", "Invest", "Scale"] =
      (specSpread (["Track", "Invest", "Scale"] : List String).length).map
        (fun sp => some ((((2 : ℕ) : ℚ) * 45 + 22.5 + sp - 90, (115 : ℚ)))) := by
  refine ⟨rfl, ?_⟩
  exact C6_amended 2 ["Track", "Invest", "Scale"] (Or.inl rfl)

theorem ticksSum_nonneg (evs : List Ev) : 0 ≤ ticksSum evs := by
  induction evs with
  | nil => simp [ticksSum]
  | cons e rest ih =>
    unfold ticksSum at ih ⊢
    rw [List.map_cons, List.sum_cons]
    have h : 0 ≤ (match e with | Ev.tick dt => (dt : ℤ) | _ => 0) := by
      cases e <;> simp
    omega
/-! ### Step and run characterisation lemmas -/

theorem run_nil (s : GApp) : run s [] = some s := rfl

theorem run_cons_some (s s2 : GApp) (e : Ev) (rest : List Ev) (h : step s e = some s2) :
    run s (e :: rest) = run s2 rest := by
  show (step s e).bind (fun u => run u rest) = run s2 rest
  rw [h]
  rfl

theorem run_cons_none (s : GApp) (e : Ev) (rest : List Ev) (h : step s e = none) :
    run s (e :: rest) = none := by
  show (step s e).bind (fun u => run u rest) = none
  rw [h]
  rfl

theorem step_tick (s : GApp) (dt : ℕ) :
    step s (Ev.tick dt) = some { s with now := s.now + (dt : ℤ) } := rfl

theorem step_pdown (s : GApp) (i : ℕ) (hi : i < DEFAULT_CATEGORIES.length) :
    step s (Ev.pdown i) = some (pressState s i) := by
  show (if i < DEFAULT_CATEGORIES.length then some (pressState s i) else none) =
    some (pressState s i)
  rw [if_pos hi]

theorem step_pdown_none (s : GApp) (i : ℕ) (hi : ¬ i < DEFAULT_CATEGORIES.length) :
    step s (Ev.pdown i) = none := by
  show (if i < DEFAULT_CATEGORIES.length then some (pressState s i) else none) = none
  rw [if_neg hi]

theorem step_pup (s : GApp) :
    step s Ev.pup = some { s with
      timers := removeTimer s.timers s.lpRef,
      isLongPress := false,
      pointerDownSlice := none } := rfl

theorem step_pleave (s : GApp) :
    step s Ev.pleave = some { s with
      timers := removeTimer s.timers s.lpRef,
      isLongPress := false } := rfl

theorem step_fire_some (s : GApp) (tid : ℕ) (t : Timer)
    (hfind : s.timers.find? (fun u => u.tid == tid) = some t)
    (hdl : t.deadline ≤ s.now) :
    step s (Ev.fire tid) =
      some (fireJob { s with timers := s.timers.filter (fun u => u.tid != tid) } t.job) := by
  simp only [step, hfind]
  rw [if_pos hdl]

theorem step_fire_late (s : GApp) (tid : ℕ) (t : Timer)
    (hfind : s.timers.find? (fun u => u.tid == tid) = some t)
    (hdl : ¬ t.deadline ≤ s.now) :
    step s (Ev.fire tid) = none := by
  simp only [step, hfind]
  rw [if_neg hdl]

theorem step_fire_miss (s : GApp) (tid : ℕ)
    (hfind : s.timers.find? (fun u => u.tid == tid) = none) :
    step s (Ev.fire tid) = none := by
  simp only [step, hfind]

theorem step_orbClick (s : GApp) (i j : ℕ) (orb : String) (hact : s.activeSlice = some i)
    (horb : (orbOf s i).get? j = some orb) :
    step s (Ev.orbClick j) = some (logState s i orb) := by
  simp only [step, hact, horb]

theorem step_backdrop (s : GApp) (i : ℕ) (hact : s.activeSlice = some i) :
    step s Ev.backdrop = some { s with activeSlice := none } := by
  simp only [step, hact]

/-- Passing time and attempted firings in the window before the single
pending deadline leave the machine unchanged except for the clock: the
firing attempts are invalid. -/
theorem run_ticks (evs : List Ev) (s : GApp) (tm : Timer) (rest : List Ev) (s' : GApp)
    (hev : ∀ e ∈ evs, tickOrFire e = true)
    (htm : s.timers = [tm])
    (hdl : s.now + ticksSum evs < tm.deadline)
    (hrun : run s (evs ++ rest) = some s') :
    run { s with now := s.now + ticksSum evs } rest = some s' := by
  induction evs generalizing s with
  | nil =>
    have h0 : ticksSum ([] : List Ev) = 0 := rfl
    rw [h0, add_zero]
    exact hrun
  | cons e evs ih =>
    have hsum0 : 0 ≤ ticksSum evs := ticksSum_nonneg evs
    cases e with
    | tick dt =>
      have hsum : ticksSum (Ev.tick dt :: evs) = (dt : ℤ) + ticksSum evs := by
        unfold ticksSum
        rw [List.map_cons, List.sum_cons]
      have hrun2 : run { s with now := s.now + (dt : ℤ) } (evs ++ rest) = some s' := by
        rw [← run_cons_some s { s with now := s.now + (dt : ℤ) } (Ev.tick dt) (evs ++ rest)
          (step_tick s dt)]
        exact hrun
      have hres := ih { s with now := s.now + (dt : ℤ) }
        (fun e2 he2 => hev e2 (List.mem_cons_of_mem _ he2)) htm
        (by
          show s.now + (dt : ℤ) + ticksSum evs < tm.deadline
          rw [hsum] at hdl
          omega)
        hrun2
      have heq : s.now + ticksSum (Ev.tick dt :: evs) = s.now + (dt : ℤ) + ticksSum evs := by
        rw [hsum]
        ring
      rw [heq]
      exact hres
    | fire tid =>
      exfalso
      have hsum : ticksSum (Ev.fire tid :: evs) = ticksSum evs := by
        unfold ticksSum
        rw [List.map_cons, List.sum_cons]
        simp
      have hnow : s.now < tm.deadline := by
        rw [hsum] at hdl
        omega
      have hstep : step s (Ev.fire tid) = none := by
        rcases hb : List.find? (fun u => u.tid == tid) s.timers with _ | t
        · exact step_fire_miss s tid hb
        · refine step_fire_late s tid t hb ?_
          have hmem : t ∈ s.timers := List.mem_of_find?_eq_some hb
          rw [htm] at hmem
          have ht : t = tm := by
            simpa using hmem
          rw [ht]
          omega
      have hnone := run_cons_none s (Ev.fire tid) (evs ++ rest) hstep
      have hrw : run s ((Ev.fire tid :: evs) ++ rest) =
          run s (Ev.fire tid :: (evs ++ rest)) := rfl
      rw [hrw, hnone] at hrun
      exact Option.noConfusion hrun
    | pdown i =>
      exact absurd (hev (Ev.pdown i) (List.mem_cons_self _ _)) (fun hb => Bool.noConfusion hb)
    | pup => exact absurd (hev Ev.pup (List.mem_cons_self _ _)) (fun hb => Bool.noConfusion hb)
    | pleave =>
      exact absurd (hev Ev.pleave (List.mem_cons_self _ _)) (fun hb => Bool.noConfusion hb)
    | orbClick j =>
      exact absurd (hev (Ev.orbClick j) (List.mem_cons_self _ _)) (fun hb => Bool.noConfusion hb)
    | backdrop =>
      exact absurd (hev Ev.backdrop (List.mem_cons_self _ _)) (fun hb => Bool.noConfusion hb)

/-- The effect of the press-ending event: active slice and logs untouched,
the referenced timer cleared. -/
theorem run_end (s : GApp) (endE : Ev) (s' : GApp)
    (hend : endE = Ev.pup ∨ endE = Ev.pleave) (hrun : run s [endE] = some s') :
    s'.activeSlice = s.activeSlice ∧ s'.logs = s.logs ∧
    s'.timers = removeTimer s.timers s.lpRef := by
  rcases hend with h | h <;> subst h
  · have h1 := run_cons_some s { s with
      timers := removeTimer s.timers s.lpRef,
      isLongPress := false,
      pointerDownSlice := none } Ev.pup [] (step_pup s)
    rw [run_nil] at h1
    rw [h1] at hrun
    rw [← Option.some.inj hrun]
    exact ⟨rfl, rfl, rfl⟩
  · have h1 := run_cons_some s { s with
      timers := removeTimer s.timers s.lpRef,
      isLongPress := false } Ev.pleave [] (step_pleave s)
    rw [run_nil] at h1
    rw [h1] at hrun
    rw [← Option.some.inj hrun]
    exact ⟨rfl, rfl, rfl⟩

/-! ### Claim C7 -/

/-- C7: (a) a pointer-down on slice i followed - after any passing of time
and attempted timer firings, summing to less than the 380 ms deadline - by
pointer-up, pointer-leave or pointer-cancel (wired to the same handler as
pointer-up) never activates any slice and never writes a log entry: the
active slice and the log store are exactly as before and no timer is left
pending (a short tap is a no-op).  (b) a pointer-down on slice i held for
the full 380 ms, whose timer then fires, activates exactly slice i (the
pressed one) and writes no log entry. -/
theorem C7_longpress :
    (∀ (s0 : GApp) (i : ℕ) (evs : List Ev) (endE : Ev) (s' : GApp),
      s0.timers = [] →
      (∀ e ∈ evs, tickOrFire e = true) →
      ticksSum evs < 380 →
      (endE = Ev.pup ∨ endE = Ev.pleave) →
      run s0 (Ev.pdown i :: (evs ++ [endE])) = some s' →
      s'.activeSlice = s0.activeSlice ∧ s'.logs = s0.logs ∧ s'.timers = []) ∧
    (∀ (s0 : GApp) (i : ℕ),
      i < DEFAULT_CATEGORIES.length → s0.timers = [] →
      ∃ s', run s0 [Ev.pdown i, Ev.tick 380, Ev.fire s0.nextId] = some s' ∧
        s'.activeSlice = some i ∧ s'.logs = s0.logs) := by
  constructor
  · intro s0 i evs endE s' h0 hev hsum hend hrun
    by_cases hi : i < DEFAULT_CATEGORIES.length
    · have hrun1 : run (pressState s0 i) (evs ++ [endE]) = some s' := by
        rw [← run_cons_some s0 (pressState s0 i) (Ev.pdown i) (evs ++ [endE])
          (step_pdown s0 i hi)]
        exact hrun
      have htm : (pressState s0 i).timers =
          [⟨s0.nextId, s0.now + 380, TimerJob.longPress i⟩] := by
        show s0.timers ++ [⟨s0.nextId, s0.now + 380, TimerJob.longPress i⟩] =
          [⟨s0.nextId, s0.now + 380, TimerJob.longPress i⟩]
        rw [h0]
        rfl
      have hdl2 : (pressState s0 i).now + ticksSum evs <
          (⟨s0.nextId, s0.now + 380, TimerJob.longPress i⟩ : Timer).deadline := by
        show s0.now + ticksSum evs < s0.now + 380
        omega
      have hres := run_ticks evs (pressState s0 i)
        ⟨s0.nextId, s0.now + 380, TimerJob.longPress i⟩ [endE] s' hev htm hdl2 hrun1
      have hfin := run_end _ endE s' hend hres
      refine ⟨?_, ?_, ?_⟩
      · rw [hfin.1]
        rfl
      · rw [hfin.2.1]
        rfl
      · rw [hfin.2.2]
        show removeTimer (s0.timers ++ [⟨s0.nextId, s0.now + 380, TimerJob.longPress i⟩])
          (some s0.nextId) = []
        rw [h0]
        show List.filter (fun t : Timer => t.tid != s0.nextId)
          [⟨s0.nextId, s0.now + 380, TimerJob.longPress i⟩] = []
        simp [List.filter]
    · exfalso
      have hnone := run_cons_none s0 (Ev.pdown i) (evs ++ [endE]) (step_pdown_none s0 i hi)
      rw [hnone] at hrun
      exact Option.noConfusion hrun
  · intro s0 i hi h0
    have hfind : (heldState s0 i).timers.find? (fun u => u.tid == s0.nextId) =
        some ⟨s0.nextId, s0.now + 380, TimerJob.longPress i⟩ := by
      show List.find? (fun u : Timer => u.tid == s0.nextId)
        (s0.timers ++ [(⟨s0.nextId, s0.now + 380, TimerJob.longPress i⟩ : Timer)]) =
        some ⟨s0.nextId, s0.now + 380, TimerJob.longPress i⟩
      rw [h0]
      show List.find? (fun u : Timer => u.tid == s0.nextId)
        [(⟨s0.nextId, s0.now + 380, TimerJob.longPress i⟩ : Timer)] =
        some ⟨s0.nextId, s0.now + 380, TimerJob.longPress i⟩
      simp [List.find?]
    have hdl : (⟨s0.nextId, s0.now + 380, TimerJob.longPress i⟩ : Timer).deadline ≤
        (heldState s0 i).now := by
      show s0.now + 380 ≤ s0.now + ((380 : ℕ) : ℤ)
      norm_num
    have hstep3 := step_fire_some (heldState s0 i) s0.nextId
      ⟨s0.nextId, s0.now + 380, TimerJob.longPress i⟩ hfind hdl
    refine ⟨fireJob { heldState s0 i with
      timers := (heldState s0 i).timers.filter (fun u => u.tid != s0.nextId) }
      (TimerJob.longPress i), ?_, ?_, ?_⟩
    · rw [run_cons_some s0 (pressState s0 i) (Ev.pdown i) _ (step_pdown s0 i hi)]
      rw [run_cons_some (pressState s0 i) (heldState s0 i) (Ev.tick 380) _
        (step_tick (pressState s0 i) 380)]
      rw [run_cons_some (heldState s0 i) _ (Ev.fire s0.nextId) _ hstep3]
      exact run_nil _
    · rfl
    · rfl

/-! ### Claim C10 -/

/-- C10: while a slice is active (orbitals revealed), pointer-up and
pointer-leave (and pointer-cancel, which shares the pointer-up handler) do
not change the active slice or the computed orbital positions - releasing
the finger after the hold leaves the orbitals shown - and the only events
that take the machine back to the idle state (no active slice) are the tap
on the dismissal backdrop and the selection of an orbital. -/
theorem C10_active_stable (s : GApp) (i : ℕ) (hact : s.activeSlice = some i) :
    (∀ s2, step s Ev.pup = some s2 →
      s2.activeSlice = some i ∧ s2.orbitalPositions = s.orbitalPositions) ∧
    (∀ s2, step s Ev.pleave = some s2 →
      s2.activeSlice = some i ∧ s2.orbitalPositions = s.orbitalPositions) ∧
    (∀ (e : Ev) (s2 : GApp), step s e = some s2 → s2.activeSlice = none →
      e = Ev.backdrop ∨ ∃ j, e = Ev.orbClick j) := by
  refine ⟨?_, ?_, ?_⟩
  · intro s2 h
    rw [step_pup s] at h
    rw [← Option.some.inj h]
    exact ⟨hact, rfl⟩
  · intro s2 h
    rw [step_pleave s] at h
    rw [← Option.some.inj h]
    exact ⟨hact, rfl⟩
  · intro e s2 h hnone
    cases e with
    | tick dt =>
      rw [step_tick s dt] at h
      rw [← Option.some.inj h] at hnone
      have hx : s.activeSlice = none := hnone
      rw [hact] at hx
      exact Option.noConfusion hx
    | pdown i2 =>
      by_cases hi : i2 < DEFAULT_CATEGORIES.length
      · rw [step_pdown s i2 hi] at h
        rw [← Option.some.inj h] at hnone
        have hx : s.activeSlice = none := hnone
        rw [hact] at hx
        exact Option.noConfusion hx
      · rw [step_pdown_none s i2 hi] at h
        exact Option.noConfusion h
    | pup =>
      rw [step_pup s] at h
      rw [← Option.some.inj h] at hnone
      have hx : s.activeSlice = none := hnone
      rw [hact] at hx
      exact Option.noConfusion hx
    | pleave =>
      rw [step_pleave s] at h
      rw [← Option.some.inj h] at hnone
      have hx : s.activeSlice = none := hnone
      rw [hact] at hx
      exact Option.noConfusion hx
    | fire tid =>
      rcases hfind : s.timers.find? (fun u => u.tid == tid) with _ | t
      · rw [step_fire_miss s tid hfind] at h
        exact Option.noConfusion h
      · by_cases hdl : t.deadline ≤ s.now
        · rw [step_fire_some s tid t hfind hdl] at h
          cases hjob : t.job with
          | longPress idx =>
            rw [hjob] at h
            rw [← Option.some.inj h] at hnone
            have hx : some idx = (none : Option ℕ) := hnone
            exact Option.noConfusion hx
          | notifClear =>
            rw [hjob] at h
            rw [← Option.some.inj h] at hnone
            have hx : s.activeSlice = none := hnone
            rw [hact] at hx
            exact Option.noConfusion hx
        · rw [step_fire_late s tid t hfind hdl] at h
          exact Option.noConfusion h
    | orbClick j => exact Or.inr ⟨j, rfl⟩
    | backdrop => exact Or.inl rfl

/-- C10 witness: the statement at the concrete active state. -/
theorem C10_witness :
    activeDemo.activeSlice = some 0 ∧
    ((∀ s2, step activeDemo Ev.pup = some s2 →
      s2.activeSlice = some 0 ∧ s2.orbitalPositions = activeDemo.orbitalPositions) ∧
    (∀ s2, step activeDemo Ev.pleave = some s2 →
      s2.activeSlice = some 0 ∧ s2.orbitalPositions = activeDemo.orbitalPositions) ∧
    (∀ (e : Ev) (s2 : GApp), step activeDemo e = some s2 → s2.activeSlice = none →
      e = Ev.backdrop ∨ ∃ j, e = Ev.orbClick j)) := by
  refine ⟨rfl, ?_⟩
  exact C10_active_stable activeDemo 0 rfl

/-- C7 witness: the short-tap part at a concrete 200 ms tap on slice 0 from
the initial state, and the held-press part on slice 0. -/
theorem C7_witness :
    initApp.timers = [] ∧ ticksSum [Ev.tick 200] < 380 ∧
    (shortTapState.activeSlice = initApp.activeSlice ∧
      shortTapState.logs = initApp.logs ∧ shortTapState.timers = []) ∧
    (∃ s', run initApp [Ev.pdown 0, Ev.tick 380, Ev.fire initApp.nextId] = some s' ∧
      s'.activeSlice = some 0 ∧ s'.logs = initApp.logs) := by
  refine ⟨rfl, by decide, ?_, ?_⟩
  · exact C7_longpress.1 initApp 0 [Ev.tick 200] Ev.pup shortTapState rfl (by decide)
      (by decide) (Or.inl rfl) rfl
  · exact C7_longpress.2 initApp 0 (by decide) rfl

/-! ### Claim C4 -/

/-- C4 counterexample: handlePointerDown does not clear a previously pending
long-press timer - it only overwrites the stored handle.  After a press on
slice 0 immediately followed by a press on slice 1 (a second finger, with no
pointer-up or pointer-leave in between), two long-press timers are pending;
letting the first one fire at its deadline activates slice 0, the slice the
pointer has left - the stale activation the claim says is prevented. -/
theorem C4_counterexample :
    (run initApp [Ev.pdown 0, Ev.pdown 1]).map lpCount = some 2 ∧
    (run initApp [Ev.pdown 0, Ev.pdown 1, Ev.tick 380, Ev.fire 0]).map
      (fun s => s.activeSlice) = some (some 0) := by
  refine ⟨by decide, by decide⟩

theorem length_le_one_of_all_eq {α : Type} (l : List α) (c : α) (hn : l.Nodup)
    (he : ∀ a ∈ l, a = c) : l.length ≤ 1 := by
  cases l with
  | nil => simp
  | cons a l2 =>
    cases l2 with
    | nil => simp
    | cons b l3 =>
      exfalso
      rw [List.nodup_cons] at hn
      have ha := he a (List.mem_cons_self _ _)
      have hb := he b (List.mem_cons_of_mem _ (List.mem_cons_self _ _))
      apply hn.1
      rw [ha, ← hb]
      exact List.mem_cons_self _ _

theorem lpCount_le_one (opn : Bool) (s : GApp) (hinv : PressInv opn s) : lpCount s ≤ 1 := by
  rcases hinv with ⟨hnd, hbound, href, hopn⟩
  rcases hr : s.lpRef with _ | r
  · have hnone : ∀ t ∈ s.timers.filter (fun t => isLP t.job), False := by
      intro t ht
      rw [List.mem_filter] at ht
      have h := href t ht.1 ht.2
      rw [hr] at h
      exact Option.noConfusion h
    have hemp : s.timers.filter (fun t => isLP t.job) = [] :=
      List.eq_nil_iff_forall_not_mem.mpr (fun a ha => hnone a ha)
    unfold lpCount
    rw [hemp]
    simp
  · have hsubnd : ((s.timers.filter (fun t => isLP t.job)).map (fun t => t.tid)).Nodup :=
      List.Nodup.sublist (List.Sublist.map (fun t => t.tid) (List.filter_sublist s.timers)) hnd
    have hall : ∀ x ∈ (s.timers.filter (fun t => isLP t.job)).map (fun t => t.tid), x = r := by
      intro x hx
      rw [List.mem_map] at hx
      obtain ⟨t, ht, hxt⟩ := hx
      rw [List.mem_filter] at ht
      have h := href t ht.1 ht.2
      rw [hr] at h
      have h2 := Option.some.inj h
      rw [← hxt]
      exact h2
    have hlen := length_le_one_of_all_eq _ r hsubnd hall
    rw [List.length_map] at hlen
    exact hlen

theorem removeTimer_sublist (ts : List Timer) (o : Option ℕ) :
    List.Sublist (removeTimer ts o) ts := by
  cases o with
  | none => exact List.Sublist.refl ts
  | some r => exact List.filter_sublist ts

/-- After clearTimeout of the referenced timer, no long-press timer is left
pending and the remaining timers keep the invariant fields. -/
theorem removeTimer_no_lp (s : GApp)
    (href : ∀ t ∈ s.timers, isLP t.job = true → some t.tid = s.lpRef) :
    ∀ t ∈ removeTimer s.timers s.lpRef, isLP t.job = false := by
  intro t ht
  rcases hr : s.lpRef with _ | r
  · rw [hr] at ht
    cases hisp : isLP t.job
    · rfl
    · exfalso
      have h := href t ht hisp
      rw [hr] at h
      exact Option.noConfusion h
  · rw [hr] at ht
    have ht2 := List.mem_filter.mp ht
    cases hisp : isLP t.job
    · rfl
    · exfalso
      have h := href t ht2.1 hisp
      rw [hr] at h
      have h2 := Option.some.inj h
      have hb := ht2.2
      rw [h2] at hb
      simp at hb

theorem filter_lp_nil (l : List Timer) (h : ∀ t ∈ l, isLP t.job = false) :
    (l.filter (fun t => isLP t.job)).length = 0 := by
  have hemp : l.filter (fun t => isLP t.job) = [] := by
    refine List.eq_nil_iff_forall_not_mem.mpr (fun a ha => ?_)
    have ha2 := List.mem_filter.mp ha
    rw [h a ha2.1] at ha2
    exact Bool.noConfusion ha2.2
  rw [hemp]
  rfl

theorem fireJob_timers (s : GApp) (j : TimerJob) :
    (fireJob s j).timers = s.timers ∧ (fireJob s j).nextId = s.nextId ∧
    (fireJob s j).lpRef = s.lpRef := by
  cases j with
  | longPress idx => exact ⟨rfl, rfl, rfl⟩
  | notifClear => exact ⟨rfl, rfl, rfl⟩

/-- Under the single-pointer event discipline, the press invariant is
maintained along every run, so at most one long-press timer is ever
pending. -/
theorem pressInv_run (evs : List Ev) : ∀ (opn : Bool) (s s' : GApp),
    PressInv opn s → spOk opn evs = true → run s evs = some s' → lpCount s' ≤ 1 := by
  induction evs with
  | nil =>
    intro opn s s' hinv hok hrun
    rw [run_nil] at hrun
    rw [← Option.some.inj hrun]
    exact lpCount_le_one opn s hinv
  | cons e evs ih =>
    intro opn s s' hinv hok hrun
    obtain ⟨hnd, hbound, href, hopn⟩ := hinv
    cases e with
    | tick dt =>
      have hok2 : spOk opn evs = true := hok
      have hrun2 : run { s with now := s.now + (dt : ℤ) } evs = some s' := by
        rw [← run_cons_some s _ (Ev.tick dt) evs (step_tick s dt)]
        exact hrun
      exact ih opn { s with now := s.now + (dt : ℤ) } s' ⟨hnd, hbound, href, hopn⟩ hok2 hrun2
    | pdown i =>
      have hok' : (!opn && spOk true evs) = true := hok
      rw [Bool.and_eq_true] at hok'
      have hopn0 : opn = false := by
        cases opn
        · rfl
        · exact Bool.noConfusion hok'.1
      have hok2 : spOk true evs = true := hok'.2
      have hlz : lpCount s = 0 := hopn hopn0
      have hnolp : ∀ t ∈ s.timers, isLP t.job = false := by
        intro t ht
        cases hisp : isLP t.job
        · rfl
        · exfalso
          have hmem : t ∈ s.timers.filter (fun u => isLP u.job) :=
            List.mem_filter.mpr ⟨ht, hisp⟩
          have hpos := List.length_pos_of_mem hmem
          unfold lpCount at hlz
          omega
      by_cases hi : i < DEFAULT_CATEGORIES.length
      · have hrun2 : run (pressState s i) evs = some s' := by
          rw [← run_cons_some s (pressState s i) (Ev.pdown i) evs (step_pdown s i hi)]
          exact hrun
        refine ih true (pressState s i) s' ⟨?_, ?_, ?_, ?_⟩ hok2 hrun2
        · show ((s.timers ++ [(⟨s.nextId, s.now + 380, TimerJob.longPress i⟩ : Timer)]).map
            (fun t : Timer => t.tid)).Nodup
          rw [List.map_append]
          refine List.Nodup.append hnd (List.nodup_singleton _) ?_
          intro x hx hx2
          simp only [List.map_cons, List.map_nil, List.mem_singleton] at hx2
          rw [List.mem_map] at hx
          obtain ⟨t, ht, hxt⟩ := hx
          have hb := hbound t ht
          rw [← hxt] at hx2
          omega
        · show ∀ t ∈ s.timers ++ [(⟨s.nextId, s.now + 380, TimerJob.longPress i⟩ : Timer)],
            t.tid < s.nextId + 1
          intro t ht
          rw [List.mem_append] at ht
          rcases ht with ht | ht
          · have hb := hbound t ht
            omega
          · rw [List.mem_singleton] at ht
            rw [ht]
            show s.nextId < s.nextId + 1
            omega
        · show ∀ t ∈ s.timers ++ [(⟨s.nextId, s.now + 380, TimerJob.longPress i⟩ : Timer)],
            isLP t.job = true → some t.tid = some s.nextId
          intro t ht hlp
          rw [List.mem_append] at ht
          rcases ht with ht | ht
          · rw [hnolp t ht] at hlp
            exact Bool.noConfusion hlp
          · rw [List.mem_singleton] at ht
            rw [ht]
        · intro hfalse
          exact Bool.noConfusion hfalse
      · have hn2 := run_cons_none s (Ev.pdown i) evs (step_pdown_none s i hi)
        rw [hn2] at hrun
        exact Option.noConfusion hrun
    | pup =>
      have hok2 : spOk false evs = true := hok
      have hrun2 : run { s with
          timers := removeTimer s.timers s.lpRef,
          isLongPress := false, pointerDownSlice := none } evs = some s' := by
        rw [← run_cons_some s _ Ev.pup evs (step_pup s)]
        exact hrun
      have hnolp := removeTimer_no_lp s href
      have hsub := removeTimer_sublist s.timers s.lpRef
      refine ih false _ s' ⟨?_, ?_, ?_, ?_⟩ hok2 hrun2
      · exact List.Nodup.sublist (List.Sublist.map (fun t => t.tid) hsub) hnd
      · intro t ht
        exact hbound t (hsub.subset ht)
      · intro t ht hlp
        rw [hnolp t ht] at hlp
        exact Bool.noConfusion hlp
      · intro h2
        exact filter_lp_nil _ hnolp
    | pleave =>
      have hok2 : spOk false evs = true := hok
      have hrun2 : run { s with
          timers := removeTimer s.timers s.lpRef,
          isLongPress := false } evs = some s' := by
        rw [← run_cons_some s _ Ev.pleave evs (step_pleave s)]
        exact hrun
      have hnolp := removeTimer_no_lp s href
      have hsub := removeTimer_sublist s.timers s.lpRef
      refine ih false _ s' ⟨?_, ?_, ?_, ?_⟩ hok2 hrun2
      · exact List.Nodup.sublist (List.Sublist.map (fun t => t.tid) hsub) hnd
      · intro t ht
        exact hbound t (hsub.subset ht)
      · intro t ht hlp
        rw [hnolp t ht] at hlp
        exact Bool.noConfusion hlp
      · intro h2
        exact filter_lp_nil _ hnolp
    | fire tid =>
      have hok2 : spOk opn evs = true := hok
      rcases hfind : s.timers.find? (fun u => u.tid == tid) with _ | t
      · have hn2 := run_cons_none s (Ev.fire tid) evs (step_fire_miss s tid hfind)
        rw [hn2] at hrun
        exact Option.noConfusion hrun
      · by_cases hdl2 : t.deadline ≤ s.now
        · have hrun2 : run (fireJob { s with
              timers := s.timers.filter (fun u => u.tid != tid) } t.job) evs = some s' := by
            rw [← run_cons_some s _ (Ev.fire tid) evs (step_fire_some s tid t hfind hdl2)]
            exact hrun
          have hf := fireJob_timers { s with
            timers := s.timers.filter (fun u => u.tid != tid) } t.job
          have hsub : List.Sublist (fireJob { s with
              timers := s.timers.filter (fun u => u.tid != tid) } t.job).timers s.timers := by
            rw [hf.1]
            exact List.filter_sublist s.timers
          refine ih opn _ s' ⟨?_, ?_, ?_, ?_⟩ hok2 hrun2
          · exact List.Nodup.sublist (List.Sublist.map (fun t => t.tid) hsub) hnd
          · intro t2 ht2
            rw [hf.2.1]
            exact hbound t2 (hsub.subset ht2)
          · intro t2 ht2 hlp
            rw [hf.2.2]
            exact href t2 (hsub.subset ht2) hlp
          · intro ho
            have hlz := hopn ho
            have hnolp : ∀ t2 ∈ s.timers, isLP t2.job = false := by
              intro t2 ht2
              cases hisp : isLP t2.job
              · rfl
              · exfalso
                have hmem : t2 ∈ s.timers.filter (fun u => isLP u.job) :=
                  List.mem_filter.mpr ⟨ht2, hisp⟩
                have hpos := List.length_pos_of_mem hmem
                unfold lpCount at hlz
                omega
            show ((fireJob { s with
              timers := s.timers.filter (fun u => u.tid != tid) } t.job).timers.filter
                (fun t2 => isLP t2.job)).length = 0
            exact filter_lp_nil _ (fun t2 ht2 => hnolp t2 (hsub.subset ht2))
        · have hn2 := run_cons_none s (Ev.fire tid) evs (step_fire_late s tid t hfind hdl2)
          rw [hn2] at hrun
          exact Option.noConfusion hrun
    | orbClick j =>
      have hok2 : spOk opn evs = true := hok
      rcases hact : s.activeSlice with _ | i
      · have hsn : step s (Ev.orbClick j) = none := by
          simp only [step, hact]
        have hn2 := run_cons_none s (Ev.orbClick j) evs hsn
        rw [hn2] at hrun
        exact Option.noConfusion hrun
      · rcases horb : (orbOf s i).get? j with _ | orb
        · have hsn : step s (Ev.orbClick j) = none := by
            simp only [step, hact, horb]
          have hn2 := run_cons_none s (Ev.orbClick j) evs hsn
          rw [hn2] at hrun
          exact Option.noConfusion hrun
        · have hrun2 : run (logState s i orb) evs = some s' := by
            rw [← run_cons_some s _ (Ev.orbClick j) evs (step_orbClick s i j orb hact horb)]
            exact hrun
          refine ih opn (logState s i orb) s' ⟨?_, ?_, ?_, ?_⟩ hok2 hrun2
          · show ((s.timers ++ [(⟨s.nextId, s.now + 2000, TimerJob.notifClear⟩ : Timer)]).map
              (fun t : Timer => t.tid)).Nodup
            rw [List.map_append]
            refine List.Nodup.append hnd (List.nodup_singleton _) ?_
            intro x hx hx2
            simp only [List.map_cons, List.map_nil, List.mem_singleton] at hx2
            rw [List.mem_map] at hx
            obtain ⟨t, ht, hxt⟩ := hx
            have hb := hbound t ht
            rw [← hxt] at hx2
            omega
          · show ∀ t ∈ s.timers ++ [(⟨s.nextId, s.now + 2000, TimerJob.notifClear⟩ : Timer)],
              t.tid < s.nextId + 1
            intro t ht
            rw [List.mem_append] at ht
            rcases ht with ht | ht
            · have hb := hbound t ht
              omega
            · rw [List.mem_singleton] at ht
              rw [ht]
              show s.nextId < s.nextId + 1
              omega
          · show ∀ t ∈ s.timers ++ [(⟨s.nextId, s.now + 2000, TimerJob.notifClear⟩ : Timer)],
              isLP t.job = true → some t.tid = s.lpRef
            intro t ht hlp
            rw [List.mem_append] at ht
            rcases ht with ht | ht
            · exact href t ht hlp
            · rw [List.mem_singleton] at ht
              rw [ht] at hlp
              exact Bool.noConfusion hlp
          · intro ho
            have hlz := hopn ho
            show ((s.timers ++ [(⟨s.nextId, s.now + 2000, TimerJob.notifClear⟩ : Timer)]).filter
              (fun t : Timer => isLP t.job)).length = 0
            rw [List.filter_append, List.length_append]
            unfold lpCount at hlz
            have hone : (List.filter (fun t => isLP t.job)
                [(⟨s.nextId, s.now + 2000, TimerJob.notifClear⟩ : Timer)]).length = 0 := rfl
            omega
    | backdrop =>
      have hok2 : spOk opn evs = true := hok
      rcases hact : s.activeSlice with _ | i
      · have hsn : step s Ev.backdrop = none := by
          simp only [step, hact]
        have hn2 := run_cons_none s Ev.backdrop evs hsn
        rw [hn2] at hrun
        exact Option.noConfusion hrun
      · have hrun2 : run { s with activeSlice := none } evs = some s' := by
          rw [← run_cons_some s _ Ev.backdrop evs (step_backdrop s i hact)]
          exact hrun
        exact ih opn { s with activeSlice := none } s' ⟨hnd, hbound, href, hopn⟩ hok2 hrun2

/-- C4 amended: a pointer-down does not cancel a pending long-press timer -
it only overwrites the stored handle, so every previously pending timer is
still pending afterwards (first part).  Pending long-press timers are
cancelled by pointer-up, pointer-leave and pointer-cancel, so under the
single-pointer event discipline - every press is ended by one of those
before another press begins - at most one long-press timer is ever pending
(second part). -/
theorem C4_amended :
    (∀ (s : GApp) (i : ℕ) (s2 : GApp), step s (Ev.pdown i) = some s2 →
      ∀ t ∈ s.timers, t ∈ s2.timers) ∧
    (∀ (evs : List Ev) (s' : GApp), spOk false evs = true →
      run initApp evs = some s' → lpCount s' ≤ 1) := by
  constructor
  · intro s i s2 hstep t ht
    by_cases hi : i < DEFAULT_CATEGORIES.length
    · rw [step_pdown s i hi] at hstep
      rw [← Option.some.inj hstep]
      show t ∈ s.timers ++ [(⟨s.nextId, s.now + 380, TimerJob.longPress i⟩ : Timer)]
      exact List.mem_append_left _ ht
    · rw [step_pdown_none s i hi] at hstep
      exact Option.noConfusion hstep
  · intro evs s' hok hrun
    refine pressInv_run evs false initApp s' ⟨?_, ?_, ?_, ?_⟩ hok hrun
    · exact List.nodup_nil
    · intro t ht
      exact absurd ht (List.not_mem_nil t)
    · intro t ht
      exact absurd ht (List.not_mem_nil t)
    · intro h2
      rfl

/-- C4 witness: both amended parts at concrete inputs. -/
theorem C4_witness :
    (step initApp (Ev.pdown 0) = some onePress ∧
      ∀ t ∈ initApp.timers, t ∈ onePress.timers) ∧
    (spOk false [Ev.pdown 0, Ev.pup, Ev.pdown 1] = true ∧
      run initApp [Ev.pdown 0, Ev.pup, Ev.pdown 1] = some pressTwice ∧
      lpCount pressTwice ≤ 1) := by
  refine ⟨⟨rfl, ?_⟩, rfl, rfl, ?_⟩
  · exact C4_amended.1 initApp 0 onePress rfl
  · exact C4_amended.2 [Ev.pdown 0, Ev.pup, Ev.pdown 1] pressTwice rfl rfl

/-! ### Claim C5 -/

/-- C5 counterexample: two quick logs.  From the initial state, slice 0 is
held and its Track orbital logged at t = 380 (scheduling clear timer 1 for
t = 2380), then held again and Invest logged at t = 760 (scheduling clear
timer 3 for t = 2760).  Right after the second log TWO clear timers are
pending (the claim says at most one), and when timer 1 fires on schedule at
t = 2380 it clears the newest notification only 1620 ms after the most
recent call (the claim says the notification never clears before 2000 ms
have elapsed since the most recent call): logActivity discards the timer
handle and never cancels or resets the previous clear timer. -/
theorem C5_counterexample :
    (run initApp [Ev.pdown 0, Ev.tick 380, Ev.fire 0, Ev.orbClick 0,
        Ev.pdown 0, Ev.tick 380, Ev.fire 2, Ev.orbClick 1]).map
      (fun s => (notifCount s, s.now, s.justLogged)) =
      some (2, 760, some (("finance" : String), ("Invest" : String))) ∧
    (run initApp [Ev.pdown 0, Ev.tick 380, Ev.fire 0, Ev.orbClick 0,
        Ev.pdown 0, Ev.tick 380, Ev.fire 2, Ev.orbClick 1, Ev.tick 1620, Ev.fire 1]).map
      (fun s => (s.justLogged, s.now)) =
      some ((none : Option (String × String)), (2380 : ℤ)) := by
  refine ⟨by decide, by decide⟩

/-- C5 amended: when an orbital of the active slice is clicked while
previous notification-clear timers may still be pending, the displayed
notification is replaced by the newest (categoryId, orbitalName) and one
more 2000 ms clear timer is scheduled; the previously pending timers are
NOT cancelled - every pending timer is still pending - so the pending count
grows by one and an earlier timer may clear the new notification before
2000 ms have elapsed (see the counterexample). -/
theorem C5_amended (s : GApp) (i j : ℕ) (orb : String) (s2 : GApp)
    (hact : s.activeSlice = some i)
    (horb : (orbOf s i).get? j = some orb)
    (hstep : step s (Ev.orbClick j) = some s2) :
    s2.justLogged = some ((DEFAULT_CATEGORIES.getD i ⟨"", []⟩).id, orb) ∧
    notifCount s2 = notifCount s + 1 ∧
    (∀ t ∈ s.timers, t ∈ s2.timers) ∧
    (∃ t, t ∈ s2.timers ∧ t.deadline = s.now + 2000 ∧ isLP t.job = false) := by
  rw [step_orbClick s i j orb hact horb] at hstep
  rw [← Option.some.inj hstep]
  refine ⟨rfl, ?_, ?_, ?_⟩
  · show ((s.timers ++ [(⟨s.nextId, s.now + 2000, TimerJob.notifClear⟩ : Timer)]).filter
      (fun t : Timer => !(isLP t.job))).length = notifCount s + 1
    rw [List.filter_append, List.length_append]
    unfold notifCount
    have hone : (List.filter (fun t => !(isLP t.job))
        [(⟨s.nextId, s.now + 2000, TimerJob.notifClear⟩ : Timer)]).length = 1 := rfl
    omega
  · intro t ht
    show t ∈ s.timers ++ [(⟨s.nextId, s.now + 2000, TimerJob.notifClear⟩ : Timer)]
    exact List.mem_append_left _ ht
  · refine ⟨⟨s.nextId, s.now + 2000, TimerJob.notifClear⟩, ?_, rfl, rfl⟩
    show (⟨s.nextId, s.now + 2000, TimerJob.notifClear⟩ : Timer) ∈
      s.timers ++ [(⟨s.nextId, s.now + 2000, TimerJob.notifClear⟩ : Timer)]
    exact List.mem_append_right _ (List.mem_singleton.mpr rfl)

/-- C5 witness: the amended statement at the concrete active state. -/
theorem C5_witness :
    activeDemo.activeSlice = some 0 ∧
    (orbOf activeDemo 0).get? 0 = some ("Track") ∧
    step activeDemo (Ev.orbClick 0) = some oneClick ∧
    (oneClick.justLogged = some ((DEFAULT_CATEGORIES.getD 0 ⟨"", []⟩).id, ("Track" : String)) ∧
      notifCount oneClick = notifCount activeDemo + 1 ∧
      (∀ t ∈ activeDemo.timers, t ∈ oneClick.timers) ∧
      (∃ t, t ∈ oneClick.timers ∧ t.deadline = activeDemo.now + 2000 ∧ isLP t.job = false)) := by
  refine ⟨rfl, by decide, rfl, ?_⟩
  exact C5_amended activeDemo 0 0 ("Track") oneClick rfl (by decide) rfl

end Ritual
